import Mathlib

/-!
# Banner selection (`package banners`)

A shallow embedding of `src/banners/utils.go` and `src/banners/manager.go`,
together with the parts of the Go standard library they call
(`net.ParseIP`, `net.IP.To4`, `bytes.Compare`), and the properties proved
about them.

Conventions of the embedding

* A Go `string` is a byte sequence.  The parsers below only ever test a byte
  against ASCII characters, and every byte of a multi-byte UTF-8 sequence
  fails all of those tests exactly as the character itself does, so the
  parsers are written over the characters of a Lean `String`.
* A `net.IP` is a byte slice; it is modelled by `List Nat` and the `nil`
  slice by `[]` (no function below produces an empty non-nil `net.IP`).
* A `time.Time` is modelled by the instant it denotes, an `Int`.  The clock
  is an input: `withinPeriod` takes the instant `now` its `time.Now()` returns,
  and `GetValidBanners` takes a `clock`, the reading of each of the
  `withinPeriod` calls of its loop (`clock i` for the banner at index `i`);
  the readings need not agree with one another.
* `time.ParseInLocation` and `sort.Slice` are parameters (`parseTime`,
  `sortSlice`); what is proved holds for every parser, and for every sorting
  function with the documented behaviour of `sort.Slice` (`SortsSlice`).
-/

namespace banners

/-! ## The standard-library functions used by `isInternalIP` -/

/-- Go: `const big = 0xFFFFFF` (package `net`, `parse.go`). -/
def big : Nat := 0xFFFFFF

/-- Go: loop of `net.dtoi`; `n` is the value read so far and `i` the number of
bytes consumed.  The result is `(n, i, ok)`. -/
def dtoiLoop : List Char → Nat → Nat → Nat × Nat × Bool
  | [], n, i => if i = 0 then (0, 0, false) else (n, i, true)
  | c :: cs, n, i =>
    if '0' ≤ c ∧ c ≤ '9' then
      let n1 := n * 10 + (c.toNat - '0'.toNat)
      if n1 ≥ big then (big, i, false) else dtoiLoop cs n1 (i + 1)
    else if i = 0 then (0, 0, false) else (n, i, true)

/-- Go: `net.dtoi`, decimal to integer; returns number, bytes consumed, success. -/
def dtoi (s : List Char) : Nat × Nat × Bool := dtoiLoop s 0 0

/-- Go: loop of `net.xtoi`. -/
def xtoiLoop : List Char → Nat → Nat → Nat × Nat × Bool
  | [], n, i => if i = 0 then (0, i, false) else (n, i, true)
  | c :: cs, n, i =>
    if '0' ≤ c ∧ c ≤ '9' then
      let n1 := n * 16 + (c.toNat - '0'.toNat)
      if n1 ≥ big then (0, i, false) else xtoiLoop cs n1 (i + 1)
    else if 'a' ≤ c ∧ c ≤ 'f' then
      let n1 := n * 16 + (c.toNat - 'a'.toNat) + 10
      if n1 ≥ big then (0, i, false) else xtoiLoop cs n1 (i + 1)
    else if 'A' ≤ c ∧ c ≤ 'F' then
      let n1 := n * 16 + (c.toNat - 'A'.toNat) + 10
      if n1 ≥ big then (0, i, false) else xtoiLoop cs n1 (i + 1)
    else if i = 0 then (0, i, false) else (n, i, true)

/-- Go: `net.xtoi`, hexadecimal to integer; returns number, bytes consumed, success. -/
def xtoi (s : List Char) : Nat × Nat × Bool := xtoiLoop s 0 0

/-- Go: `net.IPv4len`. -/
def IPv4len : Nat := 4

/-- Go: `net.IPv6len`. -/
def IPv6len : Nat := 16

/-- Go: `net.v4InV6Prefix`. -/
def v4InV6Prefix : List Nat := [0, 0, 0, 0, 0, 0, 0, 0, 0, 0, 0xff, 0xff]

/-- Go: `net.IPv4(a, b, c, d)`, the 16-byte form of the IPv4 address. -/
def IPv4 (a b c d : Nat) : List Nat := v4InV6Prefix ++ [a, b, c, d]

/-- Go: the `for i := 0; i < IPv4len; i++` loop of `net.parseIPv4`; `k` is the
number of iterations left (`i = IPv4len - k`), `p` the octets read so far.
`none` is the `return nil` of the loop body. -/
def parseIPv4Loop : Nat → List Char → List Nat → Option (List Char × List Nat)
  | 0, s, p => some (s, p)
  | k + 1, s, p =>
    if s.length = 0 then none
    else
      let i := IPv4len - (k + 1)
      let dot := decide (i > 0)
      if dot ∧ s.head? ≠ some '.' then none
      else
        let s1 := if dot then s.drop 1 else s
        let (n, c, ok) := dtoi s1
        if !ok ∨ n > 0xFF then none
        else if c > 1 ∧ s1.head? = some '0' then none
        else parseIPv4Loop k (s1.drop c) (p ++ [n])

/-- Go: `net.parseIPv4` (go1.17 text: components with leading zeros are
rejected).  `[]` is `nil`. -/
def parseIPv4 (s : List Char) : List Nat :=
  match parseIPv4Loop IPv4len s [] with
  | some (rest, [a, b, c, d]) => if rest.length ≠ 0 then [] else IPv4 a b c d
  | _ => []

/-- State of the main loop of `net.parseIPv6`. -/
structure V6State where
  s : List Char
  i : Nat
  ellipsis : Option Nat
  ip : List Nat

/-- Go: the `for i < IPv6len` loop of `net.parseIPv6`.  `none` is `return nil`;
`some st` is the state on leaving the loop (by `break` or by `i ≥ IPv6len`).
Every iteration that does not leave the loop adds 2 to `i`, so 8 units of
fuel are never exhausted. -/
def parseIPv6Loop : Nat → V6State → Option V6State
  | 0, st => some st
  | fuel + 1, st =>
    if ¬ st.i < IPv6len then some st
    else
      let (n, c, ok) := xtoi st.s
      if !ok ∨ n > 0xFFFF then none
      else if c < st.s.length ∧ st.s.get? c = some '.' then
        if st.ellipsis = none ∧ st.i ≠ IPv6len - IPv4len then none
        else if st.i + IPv4len > IPv6len then none
        else
          let ip4 := parseIPv4 st.s
          if ip4 = [] then none
          else
            let ip := (((st.ip.set st.i (ip4.getD 12 0)).set (st.i + 1) (ip4.getD 13 0)).set
              (st.i + 2) (ip4.getD 14 0)).set (st.i + 3) (ip4.getD 15 0)
            some { s := [], i := st.i + IPv4len, ellipsis := st.ellipsis, ip := ip }
      else
        let ip := (st.ip.set st.i ((n / 256) % 256)).set (st.i + 1) (n % 256)
        let i := st.i + 2
        let s := st.s.drop c
        if s.length = 0 then some { s := s, i := i, ellipsis := st.ellipsis, ip := ip }
        else if s.head? ≠ some ':' ∨ s.length = 1 then none
        else
          let s := s.drop 1
          if s.head? = some ':' then
            if st.ellipsis ≠ none then none
            else
              let s := s.drop 1
              if s.length = 0 then some { s := s, i := i, ellipsis := some i, ip := ip }
              else parseIPv6Loop fuel { s := s, i := i, ellipsis := some i, ip := ip }
          else parseIPv6Loop fuel { s := s, i := i, ellipsis := st.ellipsis, ip := ip }

/-- Go: `for j := i - 1; j >= ellipsis; j-- { ip[j+n] = ip[j] }`, with `k` the
number of iterations left (`j = ellipsis + k - 1`). -/
def expandMove (n ellipsis : Nat) : Nat → List Nat → List Nat
  | 0, ip => ip
  | k + 1, ip => expandMove n ellipsis k (ip.set (ellipsis + k + n) (ip.getD (ellipsis + k) 0))

/-- Go: `for j := ellipsis + n - 1; j >= ellipsis; j-- { ip[j] = 0 }`, with `k`
the number of iterations left. -/
def expandZero (ellipsis : Nat) : Nat → List Nat → List Nat
  | 0, ip => ip
  | k + 1, ip => expandZero ellipsis k (ip.set (ellipsis + k) 0)

/-- Go: the end of `net.parseIPv6`, after the loop: the whole string must have
been used, and an address that is too short is completed at the ellipsis. -/
def parseIPv6Finish : Option V6State → List Nat
  | none => []
  | some st =>
    if st.s.length ≠ 0 then []
    else if st.i < IPv6len then
      match st.ellipsis with
      | none => []
      | some e =>
        let n := IPv6len - st.i
        expandZero e n (expandMove n e (st.i - e) st.ip)
    else if st.ellipsis ≠ none then []
    else st.ip

/-- Go: `net.parseIPv6` (without zone).  `[]` is `nil`. -/
def parseIPv6 (s : List Char) : List Nat :=
  let ip0 := List.replicate IPv6len 0
  let lead := decide (s.length ≥ 2) && s.get? 0 = some ':' && s.get? 1 = some ':'
  let s1 := if lead then s.drop 2 else s
  if lead ∧ s1.length = 0 then ip0
  else
    parseIPv6Finish
      (parseIPv6Loop 8 { s := s1, i := 0, ellipsis := if lead then some 0 else none, ip := ip0 })

/-- Go: `net.ParseIP`: the first `.` or `:` of the string selects the parser;
a string with neither is not an address.  `[]` is `nil`. -/
def ParseIPFrom (whole : List Char) : List Char → List Nat
  | [] => []
  | c :: cs =>
    if c = '.' then parseIPv4 whole
    else if c = ':' then parseIPv6 whole
    else ParseIPFrom whole cs

/-- Go: `net.ParseIP(s)`. -/
def ParseIP (s : String) : List Nat := ParseIPFrom s.data s.data

/-- Go: `net.isZeros`. -/
def isZeros (p : List Nat) : Bool := p.all (fun x => x == 0)

/-- Go: `net.IP.To4`: the 4-byte form of an IPv4 address (also of an
IPv4-mapped 16-byte address), `nil` otherwise. -/
def To4 (ip : List Nat) : List Nat :=
  if ip.length = IPv4len then ip
  else if ip.length = IPv6len ∧ isZeros (ip.take 10) ∧ ip.getD 10 0 = 0xff ∧ ip.getD 11 0 = 0xff then
    (ip.drop 12).take 4
  else []

/-- A well-formed 16-byte `net.IP`: sixteen entries, each a byte. -/
def IsIP16 (ip : List Nat) : Prop := ip.length = 16 ∧ ∀ x ∈ ip, x < 256

/-- Go: `bytes.Compare(a, b)`: lexicographic comparison, `-1`, `0` or `1`. -/
def bytesCompare : List Nat → List Nat → Int
  | [], [] => 0
  | [], _ :: _ => -1
  | _ :: _, [] => 1
  | x :: xs, y :: ys => if x < y then -1 else if y < x then 1 else bytesCompare xs ys

/-! ## `utils.go` -/

/-- A value of dynamic type (`interface{}`) stored in a context: a Go `string`,
or a value of some other dynamic type (identified by a tag). -/
inductive Any where
  | str (s : String)
  | other (tag : Nat)
  deriving DecidableEq, Repr

/-- A context key.  Go compares keys as interface values, so a key of type
`contextKey` (`type contextKey string`) equals only a `contextKey` with the
same string; `foreign` stands for keys of every other type. -/
inductive Key where
  | contextKey (c : String)
  | foreign (tag : Nat)
  deriving DecidableEq, Repr

/-- A `context.Context` as the chain of `context.WithValue` bindings around
`context.Background()`, innermost binding first. -/
abbrev Context := List (Key × Any)

/-- Go: `context.Background()`. -/
def Background : Context := []

/-- Go: `context.WithValue(parent, key, val)`. -/
def WithValue (parent : Context) (key : Key) (val : Any) : Context := (key, val) :: parent

/-- Go: `ctx.Value(key)`: the value of the innermost binding of `key`, `nil`
(`none`) when there is none. -/
def Context.Value : Context → Key → Option Any
  | [], _ => none
  | (k, v) :: parent, key => if k = key then some v else Context.Value parent key

/-- Go: `var contextKeyIPAddress = contextKey("ip-address")`. -/
def contextKeyIPAddress : Key := Key.contextKey "ip-address"

/-- Go: `internalIPBegin = net.ParseIP("10.0.0.0")`. -/
def internalIPBegin : List Nat := ParseIP "10.0.0.0"

/-- Go: `internalIPEnd = net.ParseIP("10.255.255.255")`. -/
def internalIPEnd : List Nat := ParseIP "10.255.255.255"

/-- Go: `isInternalIP` (utils.go).  The type assertion `.(string)` fails on an
absent value and on a value of another type. -/
def isInternalIP (ctx : Context) : Bool :=
  match ctx.Value contextKeyIPAddress with
  | some (Any.str i) =>
    let ip := ParseIP i
    if To4 ip = [] then false
    else decide (bytesCompare ip internalIPBegin ≥ 0) && decide (bytesCompare ip internalIPEnd ≤ 0)
  | _ => false

/-- An instant, as `time.Time` denotes one (nanoseconds from the Unix epoch). -/
abbrev Time := Int

/-- Go: `t.Before(u)`. -/
def Before (t u : Time) : Bool := decide (t < u)

/-- Go: `t.After(u)`. -/
def After (t u : Time) : Bool := decide (t > u)

/-- Go: the zero `time.Time` (January 1, year 1, 00:00:00 UTC), which
`time.ParseInLocation` returns together with a non-nil error. -/
def zeroTime : Time := -62135596800 * 1000000000

/-- A Go `error` value. -/
abbrev Error := String

/-- Go: `Banner` (types.go).  The interface is modelled by the values its
methods return: each field is the result of the method of that name, the same
on every call; `Display` is the error returned by `Display()` (`none` is
`nil`).  `id` is the identity of the record (the pointer, in Go), which tells
apart two banners with equal attributes. -/
structure Banner where
  id : Nat
  IsExpired : Bool
  GetStart : String
  GetExpiration : String
  Display : Option Error
  deriving DecidableEq, Repr

section
-- `parseTime` is the standard-library parser
-- `time.ParseInLocation(time.RFC3339, ·, location)`, as the instant it yields
-- (`none` when it returns an error).  RFC 3339 text carries its own offset, so
-- the instant does not depend on `location`.

variable (parseTime : String → Option Time)

/-- Go: `withinPeriod` (utils.go); `now` is the value of `now := time.Now()`. -/
def withinPeriod (ctx : Context) (b : Banner) (now : Time) : Bool :=
  match parseTime b.GetExpiration with
  | none => false
  | some exp =>
    match parseTime b.GetStart with
    | none => false
    | some start =>
      if isInternalIP ctx && Before now exp then true
      else After now start && Before now exp

/-! ## `types.go`, `manager.go` -/

/-- Go: `Repository` (types.go), by the values its methods return; a Go result
pair `(value, error)` is kept as a pair. -/
structure Repository where
  SaveBanner : Banner → Option Error
  GetBanners : List Banner × Option Error

/-- Go: `type manager struct { repo Repository }`. -/
structure manager where
  repo : Repository

/-- Go: `NewManager`. -/
def NewManager (r : Repository) : manager := { repo := r }

/-- Go: `(*manager).GetValidBanners`.  The loop calls `withinPeriod` once for
each banner that is not expired, and each call reads the clock for itself
(`now := time.Now()` in utils.go): `clock i` is the instant read by the call
made for `banners[i]`; it is not used when `banners[i]` is expired, for which
`&&` makes no call.  (The other `time.Now()` of `withinPeriod` only serves
for its `Location()`.)  The `nil` slice of the error return is `[]`. -/
def manager.GetValidBanners (m : manager) (ctx : Context) (clock : Nat → Time) :
    List Banner × Option Error :=
  match m.repo.GetBanners with
  | (_, some err) => ([], some err)
  | (banners, none) =>
    (banners.enum.foldl
      (fun validBanners ib =>
        if !ib.2.IsExpired && withinPeriod parseTime ctx ib.2 (clock ib.1) then
          validBanners ++ [ib.2]
        else validBanners) [], none)

/-- Go: `(*manager).AddBanner`. -/
def manager.AddBanner (m : manager) (b : Banner) : Option Error := m.repo.SaveBanner b

/-- What one call of `DisplayAppropriateBanner` does: the two values it returns
and the banners on which it invoked `Display()`, in order. -/
structure DisplayResult where
  displayed : Bool
  err : Option Error
  calls : List Banner
  deriving DecidableEq, Repr

/-- Go: the `less` closure handed to `sort.Slice` in `DisplayAppropriateBanner`,
on the two banners `banners[i]` and `banners[j]`; a parse error is discarded
and leaves the zero time. -/
def lessExpiration (bi bj : Banner) : Bool :=
  let t1 := (parseTime bi.GetExpiration).getD zeroTime
  let t2 := (parseTime bj.GetExpiration).getD zeroTime
  Before t1 t2

/-- Go: `(*manager).DisplayAppropriateBanner`; `clock` is handed to
`GetValidBanners`.  `sortSlice less x` is the content of the slice `x` after
`sort.Slice(x, less)`.  `sort.Slice` only swaps elements, so `banners[0]`
exists after it; the branch for an empty sorted slice is there for totality
only. -/
def manager.DisplayAppropriateBanner
    (sortSlice : (Banner → Banner → Bool) → List Banner → List Banner)
    (m : manager) (ctx : Context) (clock : Nat → Time) : DisplayResult :=
  match m.GetValidBanners parseTime ctx clock with
  | (_, some err) => { displayed := false, err := some err, calls := [] }
  | (banners, none) =>
    if banners.length = 0 then { displayed := false, err := none, calls := [] }
    else
      match sortSlice (lessExpiration parseTime) banners with
      | [] => { displayed := false, err := none, calls := [] }
      | b0 :: _ =>
        match b0.Display with
        | some err => { displayed := false, err := some err, calls := [b0] }
        | none => { displayed := true, err := none, calls := [b0] }

end

/-! ## `sort.Slice` -/

/-- The requirements `sort.Slice` puts on its `less` function (those of
`sort.Interface.Less`): a transitive ordering whose incomparability is
transitive too. -/
structure IsLess (less : Banner → Banner → Bool) : Prop where
  irrefl : ∀ a, less a a = false
  trans : ∀ a b c, less a b = true → less b c = true → less a c = true
  incomp : ∀ a b c, less a b = false → less b c = false → less a c = false

/-- The documented behaviour of `sort.Slice(x, less)`: the slice is permuted,
and for a `less` meeting the requirements it ends up sorted, no element being
less than an earlier one.  Nothing is promised about the order of equal
elements (`sort.Slice` is not stable). -/
structure SortsSlice (sortSlice : (Banner → Banner → Bool) → List Banner → List Banner) :
    Prop where
  perm : ∀ less x, (sortSlice less x).Perm x
  sorted : ∀ less x, IsLess less → (sortSlice less x).Pairwise (fun a b => less b a = false)

/-- Go: the inner loop of `sort.insertionSort_func`, on the sorted prefix held
in reverse (`y` is `data[j-1]`): `x` moves left while `less(x, data[j-1])`. -/
def insertLeft (less : Banner → Banner → Bool) (x : Banner) : List Banner → List Banner
  | [] => [x]
  | y :: ys => if less x y then y :: insertLeft less x ys else x :: y :: ys

/-- Go: `sort.insertionSort_func`, the algorithm `sort.Slice` runs on a slice
of at most 12 elements (go1.19 and later). -/
def insertionSort (less : Banner → Banner → Bool) (x : List Banner) : List Banner :=
  (x.foldl (fun pre b => insertLeft less b pre) []).reverse

/-- Go: `data.Swap(i, j)` on the slice being sorted (`reflect.Swapper`); the
slice is left as it is when an index is out of range. -/
def swapAt (x : List Banner) (i j : Nat) : List Banner :=
  match x[i]?, x[j]? with
  | some bi, some bj => (x.set i bj).set j bi
  | _, _ => x

/-- Go (`sort.quickSort_func`, go1.18 and earlier): the Shell-sort pass with gap
6, `for i := a + 6; i < b; i++ { if data.Less(i, i-6) { data.Swap(i, i-6) } }`,
for `a = 0`; `k` is the number of iterations left (started with `i = 6` and
`k = len(x) - 6`, both indices stay in range). -/
def gapPass (less : Banner → Banner → Bool) : Nat → Nat → List Banner → List Banner
  | 0, _, x => x
  | k + 1, i, x =>
    match x[i]?, x[i - 6]? with
    | some bi, some bj => gapPass less k (i + 1) (if less bi bj then swapAt x i (i - 6) else x)
    | _, _ => x

/-- Go (go1.18 and earlier): what `sort.Slice` does on a slice of at most 12
elements, the last branch of `sort.quickSort_func`: if there is more than one
element, a Shell-sort pass with gap 6 and then `insertionSort_func`.  (On a
longer slice `quickSort_func` partitions first; here the same two steps are
applied to a slice of any length.) -/
def quickSortSmall (less : Banner → Banner → Bool) (x : List Banner) : List Banner :=
  if x.length > 1 then insertionSort less (gapPass less (x.length - 6) 6 x) else x

/-- A finite fragment of the RFC 3339 parser for use in examples: the instants
of four timestamps of 1 January 2024 (UTC), and an error for any other text. -/
def parseSample (s : String) : Option Time :=
  if s = "2024-01-01T00:00:00Z" then some (1704067200 * 1000000000)
  else if s = "2024-01-01T01:00:00Z" then some (1704070800 * 1000000000)
  else if s = "2024-01-01T02:00:00Z" then some (1704074400 * 1000000000)
  else if s = "2024-01-01T03:00:00Z" then some (1704078000 * 1000000000)
  else none

/-! ## Sample data

The store and the banners of `manager_test.go`, at fixed instants. -/

/-- Go (manager_test.go): `mockRepo`, whose `SaveBanner` and `GetBanners` never fail. -/
def mockRepo (banners : List Banner) : Repository :=
  { SaveBanner := fun _ => none, GetBanners := (banners, none) }

/-- A store whose read fails with `err`. -/
def failingRepo (err : Error) : Repository :=
  { SaveBanner := fun _ => some err, GetBanners := ([], some err) }

/-- Go (manager_test.go): `context.WithValue(ctx, contextKeyIPAddress, ip)`. -/
def ctxOfIP (ip : String) : Context := WithValue Background contextKeyIPAddress (Any.str ip)

/-- The instant of `2024-01-01T01:00:00Z`. -/
def sampleNow : Time := 1704070800 * 1000000000

/-- A banner running from 00:00 to 02:00. -/
def bannerEarly : Banner :=
  { id := 1, IsExpired := false, GetStart := "2024-01-01T00:00:00Z",
    GetExpiration := "2024-01-01T02:00:00Z", Display := none }

/-- A banner running from 00:00 to 03:00. -/
def bannerLate : Banner :=
  { id := 2, IsExpired := false, GetStart := "2024-01-01T00:00:00Z",
    GetExpiration := "2024-01-01T03:00:00Z", Display := none }

/-- A banner running from 02:00 to 03:00. -/
def bannerFuture : Banner :=
  { id := 3, IsExpired := false, GetStart := "2024-01-01T02:00:00Z",
    GetExpiration := "2024-01-01T03:00:00Z", Display := none }

/-- A banner running from 00:00 to 03:00 and marked expired. -/
def bannerRetired : Banner :=
  { id := 4, IsExpired := true, GetStart := "2024-01-01T00:00:00Z",
    GetExpiration := "2024-01-01T03:00:00Z", Display := none }

/-- A banner whose start is not a timestamp. -/
def bannerCorrupt : Banner :=
  { id := 5, IsExpired := false, GetStart := "yesterday",
    GetExpiration := "2024-01-01T03:00:00Z", Display := none }

/-- A banner running from 00:00 to 02:00 whose `Display()` fails
(`displayError: true` in manager_test.go). -/
def bannerBroken : Banner :=
  { id := 6, IsExpired := false, GetStart := "2024-01-01T00:00:00Z",
    GetExpiration := "2024-01-01T02:00:00Z", Display := some "fake error" }

/-- A store holding one banner of each kind. -/
def sampleStore : List Banner :=
  [bannerLate, bannerRetired, bannerEarly, bannerCorrupt, bannerFuture]

/-- The text of the dotted-quad IPv4 address `a.b.c.d`: the four octets in
decimal, separated by dots. -/
def dottedQuad (a b c d : Nat) : String :=
  Nat.repr a ++ "." ++ Nat.repr b ++ "." ++ Nat.repr c ++ "." ++ Nat.repr d

/-- Go (manager_test.go): the `displayed` flag of a `mockBanner` after one call
of `DisplayAppropriateBanner` on banners not displayed before: `Display()`
sets the flag of the banner it is invoked on, unless it fails. -/
def displayedAfter (r : DisplayResult) (b : Banner) : Bool :=
  decide (b ∈ r.calls) && b.Display.isNone

/-- A banner running from 01:00 to 02:00. -/
def bannerStarting : Banner :=
  { id := 7, IsExpired := false, GetStart := "2024-01-01T01:00:00Z",
    GetExpiration := "2024-01-01T02:00:00Z", Display := none }

/-- A valid banner running from 00:00 to the given expiration. -/
def tieBanner (id : Nat) (expiration : String) : Banner :=
  { id := id, IsExpired := false, GetStart := "2024-01-01T00:00:00Z",
    GetExpiration := expiration, Display := none }

/-- A store of seven valid banners: the first expires at 03:00, the six others
at 02:00. -/
def tieStore : List Banner :=
  [tieBanner 11 "2024-01-01T03:00:00Z", tieBanner 12 "2024-01-01T02:00:00Z",
    tieBanner 13 "2024-01-01T02:00:00Z", tieBanner 14 "2024-01-01T02:00:00Z",
    tieBanner 15 "2024-01-01T02:00:00Z", tieBanner 16 "2024-01-01T02:00:00Z",
    tieBanner 17 "2024-01-01T02:00:00Z"]

/-- A clock that shows the instant `now` at every reading. -/
def steadyClock (now : Time) : Nat → Time := fun _ => now

/-- A clock that passes 01:00 between its first and its second reading: one
nanosecond before 01:00 at reading 0, one nanosecond after 01:00 from
reading 1 on. -/
def crossingClock : Nat → Time := fun i => if i = 0 then sampleNow - 1 else sampleNow + 1

/-- A banner running from 00:00 to 01:00. -/
def bannerFirstHour : Banner :=
  { id := 8, IsExpired := false, GetStart := "2024-01-01T00:00:00Z",
    GetExpiration := "2024-01-01T01:00:00Z", Display := none }

/-! ## Properties -/

/-! ### `GetValidBanners` and `withinPeriod` -/

theorem foldl_append_filter (p : Nat × Banner → Bool) (l : List (Nat × Banner))
    (acc : List Banner) :
    l.foldl (fun validBanners ib => if p ib then validBanners ++ [ib.2] else validBanners) acc
      = acc ++ (l.filter p).map Prod.snd := by
  induction l generalizing acc with
  | nil => simp
  | cons b bs ih =>
    simp only [List.foldl_cons, ih, List.filter_cons]
    by_cases h : p b = true <;> simp [h]

theorem count_filter_banner (p : Banner → Bool) (b : Banner) (l : List Banner) :
    (l.filter p).count b = if p b = true then l.count b else 0 := by
  induction l with
  | nil => simp
  | cons x xs ih =>
    by_cases hx : p x = true
    · rw [List.filter_cons_of_pos hx, List.count_cons, List.count_cons, ih]
      by_cases hb : p b = true
      · simp [hb]
      · have hne : ¬ (x = b) := fun e => hb (e ▸ hx)
        simp [hb, hne]
    · rw [List.filter_cons_of_neg hx, List.count_cons, ih]
      by_cases hb : p b = true
      · have hne : ¬ (x = b) := fun e => hx (e ▸ hb)
        simp [hb, hne]
      · simp [hb]

theorem GetValidBanners_ok (parseTime : String → Option Time) (m : manager) (ctx : Context)
    (clock : Nat → Time) (banners : List Banner) (hread : m.repo.GetBanners = (banners, none)) :
    m.GetValidBanners parseTime ctx clock =
      ((banners.enum.filter
        (fun ib => !ib.2.IsExpired && withinPeriod parseTime ctx ib.2 (clock ib.1))).map Prod.snd,
        none) := by
  unfold manager.GetValidBanners
  rw [hread]
  simp only []
  rw [foldl_append_filter
    (fun ib => !ib.2.IsExpired && withinPeriod parseTime ctx ib.2 (clock ib.1))]
  simp

theorem GetValidBanners_err (parseTime : String → Option Time) (m : manager) (ctx : Context)
    (clock : Nat → Time) (banners : List Banner) (err : Error)
    (hread : m.repo.GetBanners = (banners, some err)) :
    m.GetValidBanners parseTime ctx clock = ([], some err) := by
  unfold manager.GetValidBanners
  rw [hread]

theorem mem_valid_iff (parseTime : String → Option Time) (m : manager) (ctx : Context)
    (clock : Nat → Time) (banners : List Banner) (hread : m.repo.GetBanners = (banners, none))
    (b : Banner) :
    b ∈ (m.GetValidBanners parseTime ctx clock).1 ↔
      ∃ i, banners[i]? = some b ∧ b.IsExpired = false
        ∧ withinPeriod parseTime ctx b (clock i) = true := by
  rw [GetValidBanners_ok parseTime m ctx clock banners hread]
  simp only [List.mem_map, List.mem_filter, List.mem_enum_iff_getElem?, Bool.and_eq_true,
    Bool.not_eq_true', Prod.exists, exists_and_right, exists_eq_right]

theorem enum_filter_snd (q : Banner → Bool) (l : List Banner) :
    (l.enum.filter (fun ib => q ib.2)).map Prod.snd = l.filter q := by
  have h : List.filter q (List.map Prod.snd l.enum)
      = List.map Prod.snd (List.filter (q ∘ Prod.snd) l.enum) := List.filter_map Prod.snd l.enum
  rw [List.enum_map_snd] at h
  rw [h]
  rfl

/-- When every reading of the clock during the loop is the same instant, the
result is the store filtered at that instant. -/
theorem GetValidBanners_steady (parseTime : String → Option Time) (m : manager) (ctx : Context)
    (clock : Nat → Time) (now : Time) (banners : List Banner)
    (hread : m.repo.GetBanners = (banners, none))
    (hsteady : ∀ i, i < banners.length → clock i = now) :
    m.GetValidBanners parseTime ctx clock =
      (banners.filter (fun b => !b.IsExpired && withinPeriod parseTime ctx b now), none) := by
  rw [GetValidBanners_ok parseTime m ctx clock banners hread,
    ← enum_filter_snd (fun b => !b.IsExpired && withinPeriod parseTime ctx b now) banners]
  congr 2
  apply List.filter_congr
  intro ib hib
  have hlt : ib.1 < banners.length := by
    have := List.mem_enum_iff_getElem?.1 hib
    exact (List.getElem?_eq_some.1 this).1
  rw [hsteady ib.1 hlt]

theorem withinPeriod_parsed (parseTime : String → Option Time) (ctx : Context) (b : Banner)
    (now start exp : Time) (hstart : parseTime b.GetStart = some start)
    (hexp : parseTime b.GetExpiration = some exp) :
    withinPeriod parseTime ctx b now = true ↔
      (isInternalIP ctx = true ∧ now < exp) ∨ (start < now ∧ now < exp) := by
  unfold withinPeriod
  rw [hexp, hstart]
  cases hi : isInternalIP ctx <;> by_cases hb : now < exp <;> by_cases ha : start < now <;>
    simp [Before, After, hb, ha]

theorem withinPeriod_congr (parseTime : String → Option Time) (ctx ctx' : Context)
    (h : isInternalIP ctx = isInternalIP ctx') (b : Banner) (now : Time) :
    withinPeriod parseTime ctx b now = withinPeriod parseTime ctx' b now := by
  unfold withinPeriod
  rw [h]

theorem GetValidBanners_congr (parseTime : String → Option Time) (ctx ctx' : Context)
    (h : isInternalIP ctx = isInternalIP ctx') (m : manager) (clock : Nat → Time) :
    m.GetValidBanners parseTime ctx clock = m.GetValidBanners parseTime ctx' clock := by
  unfold manager.GetValidBanners
  have hw : withinPeriod parseTime ctx = withinPeriod parseTime ctx' := by
    funext b t
    exact withinPeriod_congr parseTime ctx ctx' h b t
  rw [hw]

theorem withinPeriod_unparsed (parseTime : String → Option Time) (ctx : Context) (b : Banner)
    (now : Time) (hbad : parseTime b.GetStart = none ∨ parseTime b.GetExpiration = none) :
    withinPeriod parseTime ctx b now = false := by
  unfold withinPeriod
  rcases hbad with h | h
  · cases he : parseTime b.GetExpiration with
    | none => rfl
    | some exp => simp only [h]
  · rw [h]

theorem mem_valid_withinPeriod (parseTime : String → Option Time) (m : manager) (ctx : Context)
    (clock : Nat → Time) (b : Banner) (hb : b ∈ (m.GetValidBanners parseTime ctx clock).1) :
    b.IsExpired = false ∧ ∃ i, withinPeriod parseTime ctx b (clock i) = true := by
  rcases hg : m.repo.GetBanners with ⟨banners, _ | e⟩
  · obtain ⟨i, _, h1, h2⟩ := (mem_valid_iff parseTime m ctx clock banners hg b).1 hb
    exact ⟨h1, i, h2⟩
  · rw [GetValidBanners_err parseTime m ctx clock banners e hg] at hb
    exact absurd hb (List.not_mem_nil b)

theorem not_mem_valid_of_unparsed (parseTime : String → Option Time) (b : Banner)
    (hbad : parseTime b.GetStart = none ∨ parseTime b.GetExpiration = none)
    (ctx : Context) (clock : Nat → Time) (m : manager) :
    b ∉ (m.GetValidBanners parseTime ctx clock).1 := by
  intro hb
  have hw := (mem_valid_withinPeriod parseTime m ctx clock b hb).2
  obtain ⟨i, hi⟩ := hw
  rw [withinPeriod_unparsed parseTime ctx b (clock i) hbad] at hi
  exact absurd hi (by simp)

/-! ### Sorting -/

theorem lessExpiration_isLess (parseTime : String → Option Time) :
    IsLess (lessExpiration parseTime) where
  irrefl a := by simp [lessExpiration, Before]
  trans a b c := by
    simp only [lessExpiration, Before, decide_eq_true_eq]
    exact fun h1 h2 => lt_trans h1 h2
  incomp a b c := by
    simp only [lessExpiration, Before, decide_eq_false_iff_not, not_lt]
    exact fun h1 h2 => le_trans h2 h1

theorem insertLeft_perm (less : Banner → Banner → Bool) (x : Banner) (l : List Banner) :
    (insertLeft less x l).Perm (x :: l) := by
  induction l with
  | nil => exact List.Perm.refl _
  | cons y ys ih =>
    unfold insertLeft
    split
    · exact (List.Perm.cons y ih).trans (List.Perm.swap x y ys)
    · exact List.Perm.refl _

theorem foldl_insertLeft_perm (less : Banner → Banner → Bool) (x pre : List Banner) :
    (x.foldl (fun pre b => insertLeft less b pre) pre).Perm (x.reverse ++ pre) := by
  induction x generalizing pre with
  | nil => simp
  | cons b bs ih =>
    simp only [List.foldl_cons, List.reverse_cons, List.append_assoc, List.singleton_append]
    exact (ih _).trans (List.Perm.append_left _ (insertLeft_perm less b pre))

theorem insertLeft_sorted (less : Banner → Banner → Bool) (hless : IsLess less) (x : Banner)
    (l : List Banner) (hl : l.Pairwise (fun a b => less a b = false)) :
    (insertLeft less x l).Pairwise (fun a b => less a b = false) := by
  induction l with
  | nil => simp [insertLeft]
  | cons y ys ih =>
    have hy := List.pairwise_cons.1 hl
    unfold insertLeft
    split
    · rename_i hxy
      refine List.pairwise_cons.2 ⟨?_, ih hy.2⟩
      intro z hz
      rcases List.mem_cons.1 ((insertLeft_perm less x ys).mem_iff.1 hz) with hzx | hzy
      · rw [hzx]
        cases hyx : less y x with
        | false => rfl
        | true =>
          have := hless.trans x y x hxy hyx
          rw [hless.irrefl x] at this
          exact absurd this (by simp)
      · exact hy.1 z hzy
    · rename_i hxy
      have hxy : less x y = false := by simpa using hxy
      refine List.pairwise_cons.2 ⟨?_, hl⟩
      intro z hz
      rcases List.mem_cons.1 hz with hzy | hzy
      · rw [hzy]
        exact hxy
      · exact hless.incomp x y z hxy (hy.1 z hzy)

theorem foldl_insertLeft_sorted (less : Banner → Banner → Bool) (hless : IsLess less)
    (x pre : List Banner) (hpre : pre.Pairwise (fun a b => less a b = false)) :
    (x.foldl (fun pre b => insertLeft less b pre) pre).Pairwise (fun a b => less a b = false) := by
  induction x generalizing pre with
  | nil => simpa using hpre
  | cons b bs ih =>
    simp only [List.foldl_cons]
    exact ih _ (insertLeft_sorted less hless b pre hpre)

theorem insertionSort_sortsSlice : SortsSlice insertionSort where
  perm less x := by
    unfold insertionSort
    have h := foldl_insertLeft_perm less x []
    rw [List.append_nil] at h
    exact (List.reverse_perm _).trans (h.trans (List.reverse_perm x))
  sorted less x hless := by
    unfold insertionSort
    rw [List.pairwise_reverse]
    exact foldl_insertLeft_sorted less hless x [] List.Pairwise.nil

/-! ### `DisplayAppropriateBanner` -/

theorem GetValidBanners_nonempty_ok (parseTime : String → Option Time) (m : manager)
    (ctx : Context) (clock : Nat → Time)
    (hvalid : (m.GetValidBanners parseTime ctx clock).1 ≠ []) :
    m.GetValidBanners parseTime ctx clock = ((m.GetValidBanners parseTime ctx clock).1, none) := by
  rcases hg : m.repo.GetBanners with ⟨banners, _ | e⟩
  · rw [GetValidBanners_ok parseTime m ctx clock banners hg]
  · rw [GetValidBanners_err parseTime m ctx clock banners e hg] at hvalid
    exact absurd rfl hvalid

theorem mem_valid_parses (parseTime : String → Option Time) (m : manager) (ctx : Context)
    (clock : Nat → Time) (b : Banner) (hb : b ∈ (m.GetValidBanners parseTime ctx clock).1) :
    ∃ t, parseTime b.GetExpiration = some t := by
  cases ht : parseTime b.GetExpiration with
  | some t => exact ⟨t, rfl⟩
  | none => exact absurd hb ((not_mem_valid_of_unparsed parseTime b (Or.inr ht) ctx clock) m)

theorem display_of_sorted (parseTime : String → Option Time)
    (sortSlice : (Banner → Banner → Bool) → List Banner → List Banner) (m : manager)
    (ctx : Context) (clock : Nat → Time) (b0 : Banner) (rest : List Banner)
    (hvalid : (m.GetValidBanners parseTime ctx clock).1 ≠ [])
    (hsel : sortSlice (lessExpiration parseTime) (m.GetValidBanners parseTime ctx clock).1
      = b0 :: rest) :
    m.DisplayAppropriateBanner parseTime sortSlice ctx clock =
      match b0.Display with
      | some err => { displayed := false, err := some err, calls := [b0] }
      | none => { displayed := true, err := none, calls := [b0] } := by
  have hok := GetValidBanners_nonempty_ok parseTime m ctx clock hvalid
  have hlen : ¬ (m.GetValidBanners parseTime ctx clock).1.length = 0 := by
    rw [List.length_eq_zero]
    exact hvalid
  unfold manager.DisplayAppropriateBanner
  rw [hok]
  simp only [hlen, if_false, hsel]

theorem sorted_head_exists (sortSlice : (Banner → Banner → Bool) → List Banner → List Banner)
    (hsort : SortsSlice sortSlice) (less : Banner → Banner → Bool) (x : List Banner)
    (hx : x ≠ []) : ∃ b0 rest, sortSlice less x = b0 :: rest := by
  cases hs : sortSlice less x with
  | cons b0 rest => exact ⟨b0, rest, rfl⟩
  | nil =>
    have hp := hsort.perm less x
    rw [hs] at hp
    exact absurd (List.Perm.nil_eq hp).symm hx

/-! ### `isInternalIP` -/

theorem parseIPv6Loop_succ (fuel : Nat) (st : V6State) (h : IPv6len ≤ st.i + 2 * fuel) :
    parseIPv6Loop (fuel + 1) st = parseIPv6Loop fuel st := by
  induction fuel generalizing st with
  | zero =>
    have hi : ¬ st.i < IPv6len := by omega
    simp [parseIPv6Loop, hi]
  | succ n ih =>
    rw [parseIPv6Loop, parseIPv6Loop]
    rcases hx : xtoi st.s with ⟨v, c, ok⟩
    simp only []
    split_ifs <;> first | rfl | (apply ih; simp only []; omega)

/-- The fuel of `parseIPv6` is enough: from `i = 0` the loop of `net.parseIPv6`
has ended within 8 iterations, and more fuel changes nothing. -/
theorem parseIPv6Loop_fuel (k : Nat) (st : V6State) (h : st.i = 0) :
    parseIPv6Loop (8 + k) st = parseIPv6Loop 8 st := by
  induction k with
  | zero => rfl
  | succ k ih =>
    rw [← ih, ← Nat.add_assoc]
    exact parseIPv6Loop_succ (8 + k) st (by unfold IPv6len; omega)

set_option maxRecDepth 100000 in
theorem octet_facts : ∀ n, n < 256 →
    (∀ c ∈ (Nat.repr n).data, '0' ≤ c ∧ c ≤ '9')
    ∧ dtoi (Nat.repr n).data = (n, (Nat.repr n).data.length, true)
    ∧ ¬ ((Nat.repr n).data.length > 1 ∧ (Nat.repr n).data.head? = some '0')
    ∧ (Nat.repr n).data ≠ [] := by
  decide

theorem digit_not_separator : ∀ c : Char, '0' ≤ c ∧ c ≤ '9' → c ≠ '.' ∧ c ≠ ':' := by
  intro c hc
  constructor
  · rintro rfl
    exact absurd hc.1 (by decide)
  · rintro rfl
    exact absurd hc.2 (by decide)

theorem dtoiLoop_append (ds rest : List Char) (n i : Nat)
    (hds : ∀ c ∈ ds, '0' ≤ c ∧ c ≤ '9') (hrest : rest = [] ∨ ∃ r, rest = '.' :: r) :
    dtoiLoop (ds ++ rest) n i = dtoiLoop ds n i := by
  induction ds generalizing n i with
  | nil =>
    rcases hrest with h | ⟨r, h⟩
    · rw [h]
      rfl
    · rw [h]
      have hdot : ¬ ('0' ≤ '.' ∧ '.' ≤ '9') := by decide
      simp only [List.nil_append, dtoiLoop, hdot, if_false]
  | cons c cs ih =>
    have hc := hds c (List.mem_cons_self c cs)
    have hcs : ∀ x ∈ cs, '0' ≤ x ∧ x ≤ '9' := fun x hx => hds x (List.mem_cons_of_mem c hx)
    simp only [List.cons_append, dtoiLoop, hc, and_self, if_true]
    split
    · rfl
    · exact ih _ _ hcs

theorem dtoi_octet (n : Nat) (hn : n < 256) (rest : List Char)
    (hrest : rest = [] ∨ ∃ r, rest = '.' :: r) :
    dtoi ((Nat.repr n).data ++ rest) = (n, (Nat.repr n).data.length, true) := by
  have hf := octet_facts n hn
  unfold dtoi
  rw [dtoiLoop_append _ rest 0 0 hf.1 hrest]
  exact hf.2.1

theorem head_octet_append (n : Nat) (hn : n < 256) (rest : List Char) :
    ((Nat.repr n).data ++ rest).head? = (Nat.repr n).data.head? := by
  have hne := (octet_facts n hn).2.2.2
  cases h : (Nat.repr n).data with
  | nil => exact absurd h hne
  | cons c cs => rfl

theorem parseIPv4Loop_first (n : Nat) (hn : n < 256) (rest : List Char)
    (hrest : rest = [] ∨ ∃ r, rest = '.' :: r) (p : List Nat) :
    parseIPv4Loop 4 ((Nat.repr n).data ++ rest) p = parseIPv4Loop 3 rest (p ++ [n]) := by
  have hf := octet_facts n hn
  have hlen : ¬ ((Nat.repr n).data ++ rest).length = 0 := by
    rw [List.length_eq_zero]
    intro h
    exact hf.2.2.2 (List.append_eq_nil.1 h).1
  have hzero : ¬ ((Nat.repr n).data.length > 1
      ∧ ((Nat.repr n).data ++ rest).head? = some '0') := by
    rw [head_octet_append n hn rest]
    exact hf.2.2.1
  have hle : ¬ n > 255 := by omega
  rw [parseIPv4Loop]
  simp only [hlen, if_false, IPv4len, Nat.sub_self, gt_iff_lt, lt_self_iff_false, decide_False,
    Bool.false_eq_true, false_and, dtoi_octet n hn rest hrest, Bool.not_true, false_or,
    List.drop_left]
  rw [if_neg (by omega), if_neg hzero]

theorem parseIPv4Loop_next (k : Nat) (hk : k < 3) (n : Nat) (hn : n < 256) (rest : List Char)
    (hrest : rest = [] ∨ ∃ r, rest = '.' :: r) (p : List Nat) :
    parseIPv4Loop (k + 1) ('.' :: ((Nat.repr n).data ++ rest)) p
      = parseIPv4Loop k rest (p ++ [n]) := by
  have hf := octet_facts n hn
  have hzero : ¬ ((Nat.repr n).data.length > 1
      ∧ ((Nat.repr n).data ++ rest).head? = some '0') := by
    rw [head_octet_append n hn rest]
    exact hf.2.2.1
  have hi : IPv4len - (k + 1) > 0 := by
    unfold IPv4len
    omega
  rw [parseIPv4Loop]
  simp only [List.length_cons, Nat.add_one_ne_zero, if_false, hi, decide_True, List.head?_cons,
    ne_eq, not_true_eq_false, and_false, if_true, List.drop_succ_cons, List.drop_zero,
    dtoi_octet n hn rest hrest, Bool.not_true, Bool.false_eq_true, false_or, List.drop_left]
  rw [if_neg (by omega), if_neg hzero]

theorem dottedQuad_data (a b c d : Nat) :
    (dottedQuad a b c d).data =
      (Nat.repr a).data ++ '.' :: ((Nat.repr b).data ++ '.' :: ((Nat.repr c).data
        ++ '.' :: ((Nat.repr d).data ++ []))) := by
  simp [dottedQuad, String.data_append]

theorem parseIPv4_dottedQuad (a b c d : Nat) (ha : a < 256) (hb : b < 256) (hc : c < 256)
    (hd : d < 256) : parseIPv4 (dottedQuad a b c d).data = IPv4 a b c d := by
  unfold parseIPv4
  rw [dottedQuad_data, show IPv4len = 4 from rfl,
    parseIPv4Loop_first a ha _ (Or.inr ⟨_, rfl⟩),
    parseIPv4Loop_next 2 (by omega) b hb _ (Or.inr ⟨_, rfl⟩),
    parseIPv4Loop_next 1 (by omega) c hc _ (Or.inr ⟨_, rfl⟩),
    parseIPv4Loop_next 0 (by omega) d hd _ (Or.inl rfl)]
  simp [parseIPv4Loop]

theorem ParseIPFrom_digits (whole ds rest : List Char)
    (hds : ∀ c ∈ ds, '0' ≤ c ∧ c ≤ '9') :
    ParseIPFrom whole (ds ++ '.' :: rest) = parseIPv4 whole := by
  induction ds with
  | nil => simp [ParseIPFrom]
  | cons c cs ih =>
    have hc := digit_not_separator c (hds c (List.mem_cons_self c cs))
    simp only [List.cons_append, ParseIPFrom, hc.1, hc.2, if_false]
    exact ih (fun x hx => hds x (List.mem_cons_of_mem c hx))

theorem ParseIP_dottedQuad (a b c d : Nat) (ha : a < 256) (hb : b < 256) (hc : c < 256)
    (hd : d < 256) : ParseIP (dottedQuad a b c d) = IPv4 a b c d := by
  unfold ParseIP
  rw [← parseIPv4_dottedQuad a b c d ha hb hc hd]
  have h := ParseIPFrom_digits (dottedQuad a b c d).data (Nat.repr a).data
    ((Nat.repr b).data ++ '.' :: ((Nat.repr c).data ++ '.' :: ((Nat.repr d).data ++ [])))
    (octet_facts a ha).1
  rw [← dottedQuad_data] at h
  exact h

/-! What `net.ParseIP` returns is `nil` or a well-formed 16-byte address. -/

theorem parseIPv4Loop_bytes (k : Nat) (s : List Char) (p : List Nat)
    (hp : ∀ x ∈ p, x < 256) (rest : List Char) (q : List Nat)
    (h : parseIPv4Loop k s p = some (rest, q)) : ∀ x ∈ q, x < 256 := by
  induction k generalizing s p with
  | zero =>
    simp only [parseIPv4Loop, Option.some.injEq, Prod.mk.injEq] at h
    rw [← h.2]
    exact hp
  | succ k ih =>
    rw [parseIPv4Loop] at h
    rcases hd : dtoi (if decide (IPv4len - (k + 1) > 0) = true then s.drop 1 else s)
      with ⟨n, c, ok⟩
    simp only [hd] at h
    split_ifs at h with h1 h2 h3
    all_goals
      refine ih _ _ ?_ h
      intro x hx
      rcases List.mem_append.1 hx with hx | hx
      · exact hp x hx
      · have hxn : x = n := by simpa using hx
        have : ¬ n > 255 := fun hgt => h3 (Or.inr hgt)
        omega

theorem parseIPv4_shape (s : List Char) :
    parseIPv4 s = [] ∨ ∃ a b c d, a < 256 ∧ b < 256 ∧ c < 256 ∧ d < 256
      ∧ parseIPv4 s = IPv4 a b c d := by
  unfold parseIPv4
  split
  · rename_i rest a b c d heq
    have hb := parseIPv4Loop_bytes IPv4len s [] (by simp) rest [a, b, c, d] heq
    split_ifs
    · exact Or.inl rfl
    · exact Or.inr ⟨a, b, c, d, hb a (by simp), hb b (by simp), hb c (by simp), hb d (by simp),
        rfl⟩
  · exact Or.inl rfl

theorem IsIP16_set (ip : List Nat) (h : IsIP16 ip) (i v : Nat) (hv : v < 256) :
    IsIP16 (ip.set i v) := by
  refine ⟨by rw [List.length_set]; exact h.1, ?_⟩
  intro x hx
  rcases List.mem_or_eq_of_mem_set hx with hx | hx
  · exact h.2 x hx
  · omega

theorem getD_lt (ip : List Nat) (h : ∀ x ∈ ip, x < 256) (i : Nat) : ip.getD i 0 < 256 := by
  rw [List.getD_eq_getElem?_getD]
  cases hg : ip[i]? with
  | none => simp
  | some v =>
    simp only [Option.getD_some]
    exact h v (List.getElem?_mem hg)

theorem IsIP16_IPv4 (a b c d : Nat) (ha : a < 256) (hb : b < 256) (hc : c < 256) (hd : d < 256) :
    IsIP16 (IPv4 a b c d) := by
  refine ⟨rfl, ?_⟩
  intro x hx
  simp only [IPv4, v4InV6Prefix, List.cons_append, List.nil_append, List.mem_cons,
    List.mem_singleton, List.not_mem_nil, or_false] at hx
  omega

theorem parseIPv4_getD_lt (s : List Char) (i : Nat) : (parseIPv4 s).getD i 0 < 256 := by
  rcases parseIPv4_shape s with h | ⟨a, b, c, d, ha, hb, hc, hd, h⟩
  · rw [h]
    simp
  · rw [h]
    exact getD_lt _ (IsIP16_IPv4 a b c d ha hb hc hd).2 i

theorem parseIPv6Loop_shape (fuel : Nat) (st st' : V6State) (hst : IsIP16 st.ip)
    (h : parseIPv6Loop fuel st = some st') : IsIP16 st'.ip := by
  induction fuel generalizing st with
  | zero =>
    simp only [parseIPv6Loop, Option.some.injEq] at h
    rw [← h]
    exact hst
  | succ n ih =>
    rw [parseIPv6Loop] at h
    rcases hx : xtoi st.s with ⟨v, c, ok⟩
    simp only [hx] at h
    have h1 : IsIP16 ((st.ip.set st.i ((v / 256) % 256)).set (st.i + 1) (v % 256)) :=
      IsIP16_set _ (IsIP16_set _ hst _ _ (Nat.mod_lt _ (by decide))) _ _
        (Nat.mod_lt _ (by decide))
    have h2 : IsIP16 ((((st.ip.set st.i ((parseIPv4 st.s).getD 12 0)).set (st.i + 1)
        ((parseIPv4 st.s).getD 13 0)).set (st.i + 2) ((parseIPv4 st.s).getD 14 0)).set
        (st.i + 3) ((parseIPv4 st.s).getD 15 0)) :=
      IsIP16_set _ (IsIP16_set _ (IsIP16_set _ (IsIP16_set _ hst _ _ (parseIPv4_getD_lt _ _)) _ _
        (parseIPv4_getD_lt _ _)) _ _ (parseIPv4_getD_lt _ _)) _ _ (parseIPv4_getD_lt _ _)
    split_ifs at h <;>
      first
      | (simp only [Option.some.injEq] at h; rw [← h]; first | exact hst | exact h1 | exact h2)
      | exact ih _ h1 h

theorem expandMove_shape (n e k : Nat) (ip : List Nat) (h : IsIP16 ip) :
    IsIP16 (expandMove n e k ip) := by
  induction k generalizing ip with
  | zero => exact h
  | succ k ih => exact ih _ (IsIP16_set _ h _ _ (getD_lt _ h.2 _))

theorem expandZero_shape (e k : Nat) (ip : List Nat) (h : IsIP16 ip) :
    IsIP16 (expandZero e k ip) := by
  induction k generalizing ip with
  | zero => exact h
  | succ k ih => exact ih _ (IsIP16_set _ h _ _ (by decide))

theorem parseIPv6Finish_shape (r : Option V6State) (h : ∀ st, r = some st → IsIP16 st.ip) :
    parseIPv6Finish r = [] ∨ IsIP16 (parseIPv6Finish r) := by
  cases r with
  | none => exact Or.inl rfl
  | some st =>
    have hs := h st rfl
    simp only [parseIPv6Finish]
    split_ifs
    · exact Or.inl rfl
    · cases he : st.ellipsis with
      | none => exact Or.inl rfl
      | some e => exact Or.inr (expandZero_shape _ _ _ (expandMove_shape _ _ _ _ hs))
    · exact Or.inl rfl
    · exact Or.inr hs

theorem parseIPv6_shape (s : List Char) : parseIPv6 s = [] ∨ IsIP16 (parseIPv6 s) := by
  have h0 : IsIP16 (List.replicate IPv6len 0) := by
    refine ⟨by simp [IPv6len], ?_⟩
    intro x hx
    rw [(List.mem_replicate.1 hx).2]
    decide
  unfold parseIPv6
  simp only []
  split_ifs
  all_goals
    first
    | exact Or.inr h0
    | exact parseIPv6Finish_shape _
        (fun st hst => parseIPv6Loop_shape 8 (V6State.mk _ 0 _ (List.replicate IPv6len 0)) st h0 hst)

theorem ParseIPFrom_shape (whole s : List Char) :
    ParseIPFrom whole s = [] ∨ IsIP16 (ParseIPFrom whole s) := by
  induction s with
  | nil => exact Or.inl rfl
  | cons c cs ih =>
    unfold ParseIPFrom
    split_ifs
    · rcases parseIPv4_shape whole with h | ⟨a, b, c, d, ha, hb, hc, hd, h⟩
      · exact Or.inl h
      · rw [h]
        exact Or.inr (IsIP16_IPv4 a b c d ha hb hc hd)
    · exact parseIPv6_shape whole
    · exact ih

theorem ParseIP_shape (s : String) : ParseIP s = [] ∨ IsIP16 (ParseIP s) :=
  ParseIPFrom_shape s.data s.data

theorem internalIPBegin_eq : internalIPBegin = IPv4 10 0 0 0 := by decide

theorem internalIPEnd_eq : internalIPEnd = IPv4 10 255 255 255 := by decide

theorem To4_IPv4 (a b c d : Nat) : To4 (IPv4 a b c d) = [a, b, c, d] := by
  simp [To4, IPv4, v4InV6Prefix, IPv4len, IPv6len, isZeros]

theorem inRange_IPv4 (a b c d : Nat) (hb : b < 256) (hc : c < 256) (hd : d < 256) :
    (bytesCompare (IPv4 a b c d) (IPv4 10 0 0 0) ≥ 0
      ∧ bytesCompare (IPv4 a b c d) (IPv4 10 255 255 255) ≤ 0) ↔ a = 10 := by
  simp only [IPv4, v4InV6Prefix, List.cons_append, List.nil_append, bytesCompare,
    lt_self_iff_false, if_false]
  constructor
  · rintro ⟨h1, h2⟩
    by_contra hne
    rcases Nat.lt_or_gt_of_ne hne with hlt | hgt
    · rw [if_pos hlt] at h1
      exact absurd h1 (by decide)
    · rw [if_neg (by omega), if_pos hgt] at h2
      exact absurd h2 (by decide)
  · rintro rfl
    refine ⟨?_, ?_⟩
    · simp only [lt_self_iff_false, if_false, Nat.not_lt_zero]
      split_ifs <;> decide
    · simp only [lt_self_iff_false, if_false]
      split_ifs <;> first | decide | omega

theorem isInternalIP_of_parse (ctx : Context) (s : String) (a b c d : Nat)
    (hctx : ctx.Value contextKeyIPAddress = some (Any.str s))
    (hparse : ParseIP s = IPv4 a b c d) (hb : b < 256) (hc : c < 256) (hd : d < 256) :
    isInternalIP ctx = true ↔ a = 10 := by
  unfold isInternalIP
  rw [hctx]
  simp only [hparse, To4_IPv4, internalIPBegin_eq, internalIPEnd_eq, List.cons_ne_nil, if_false,
    Bool.and_eq_true, decide_eq_true_eq, reduceCtorEq]
  exact inRange_IPv4 a b c d hb hc hd

theorem isInternalIP_of_no_To4 (ctx : Context) (s : String)
    (hctx : ctx.Value contextKeyIPAddress = some (Any.str s))
    (hparse : ParseIP s = [] ∨ To4 (ParseIP s) = []) : isInternalIP ctx = false := by
  have h4 : To4 (ParseIP s) = [] := by
    rcases hparse with h | h
    · rw [h]
      rfl
    · exact h
  unfold isInternalIP
  rw [hctx]
  simp only [h4, if_true]

theorem IsIP16_To4 (ip : List Nat) (h : IsIP16 ip) (h4 : To4 ip ≠ []) :
    ∃ a b c d, a < 256 ∧ b < 256 ∧ c < 256 ∧ d < 256 ∧ ip = IPv4 a b c d := by
  obtain ⟨hlen, hb⟩ := h
  rcases ip with _ | ⟨x0, _ | ⟨x1, _ | ⟨x2, _ | ⟨x3, _ | ⟨x4, _ | ⟨x5, _ | ⟨x6, _ | ⟨x7,
    _ | ⟨x8, _ | ⟨x9, _ | ⟨x10, _ | ⟨x11, _ | ⟨x12, _ | ⟨x13, _ | ⟨x14, _ | ⟨x15, _ | ⟨x16, r⟩⟩⟩⟩⟩⟩⟩⟩⟩⟩⟩⟩⟩⟩⟩⟩⟩
  all_goals try (simp only [List.length_cons, List.length_nil] at hlen; omega)
  simp only [To4, IPv4len, IPv6len, isZeros, List.length_cons, List.length_nil] at h4
  simp at h4
  obtain ⟨h0, h1, h2, h3, h4', h5, h6, h7, h8, h9, h10, h11⟩ := h4
  subst h0 h1 h2 h3 h4' h5 h6 h7 h8 h9 h10 h11
  exact ⟨x12, x13, x14, x15, hb x12 (by simp), hb x13 (by simp), hb x14 (by simp),
    hb x15 (by simp), rfl⟩

theorem isInternalIP_iff (ctx : Context) (s : String)
    (hctx : ctx.Value contextKeyIPAddress = some (Any.str s)) :
    isInternalIP ctx = true ↔
      ∃ b c d, b < 256 ∧ c < 256 ∧ d < 256 ∧ ParseIP s = IPv4 10 b c d := by
  constructor
  · intro hi
    by_cases h4 : To4 (ParseIP s) = []
    · rw [isInternalIP_of_no_To4 ctx s hctx (Or.inr h4)] at hi
      exact absurd hi (by simp)
    · rcases ParseIP_shape s with hnil | hshape
      · rw [hnil] at h4
        exact absurd rfl h4
      · obtain ⟨a, b, c, d, _, hb, hc, hd, hp⟩ := IsIP16_To4 _ hshape h4
        have ha := (isInternalIP_of_parse ctx s a b c d hctx hp hb hc hd).1 hi
        rw [ha] at hp
        exact ⟨b, c, d, hb, hc, hd, hp⟩
  · rintro ⟨b, c, d, hb, hc, hd, hp⟩
    exact (isInternalIP_of_parse ctx s 10 b c d hctx hp hb hc hd).2 rfl

theorem GetValidBanners_nil_of_none_valid (parseTime : String → Option Time) (m : manager)
    (ctx : Context) (clock : Nat → Time) (banners : List Banner)
    (hread : m.repo.GetBanners = (banners, none))
    (hnone : ∀ i b, banners[i]? = some b →
      (!b.IsExpired && withinPeriod parseTime ctx b (clock i)) = false) :
    m.GetValidBanners parseTime ctx clock = ([], none) := by
  rw [GetValidBanners_ok parseTime m ctx clock banners hread]
  congr 1
  rw [List.map_eq_nil_iff, List.filter_eq_nil_iff]
  intro ib hib
  rw [hnone ib.1 ib.2 (List.mem_enum_iff_getElem?.1 hib)]
  simp

theorem GetValidBanners_fst_subset (parseTime : String → Option Time) (m : manager)
    (ctx : Context) (clock : Nat → Time) (b : Banner)
    (hb : b ∈ (m.GetValidBanners parseTime ctx clock).1) : b ∈ m.repo.GetBanners.1 := by
  rcases hg : m.repo.GetBanners with ⟨banners, _ | e⟩
  · obtain ⟨i, hi, _⟩ := (mem_valid_iff parseTime m ctx clock banners hg b).1 hb
    exact List.getElem?_mem hi
  · rw [GetValidBanners_err parseTime m ctx clock banners e hg] at hb
    exact absurd hb (List.not_mem_nil b)

theorem filter_eq_length_one (l : List Banner) (p : Banner → Bool) (b0 : Banner)
    (hp : ∀ b, p b = true ↔ b = b0) (hmem : b0 ∈ l) (hnd : l.Nodup) :
    (l.filter p).length = 1 := by
  have hpe : p = fun b => b == b0 := by
    funext b
    by_cases h : b = b0
    · simp [h, (hp b0).2 rfl]
    · have : p b = false := by
        rw [← Bool.not_eq_true, hp b]
        exact h
      simp [h, this]
  rw [← List.countP_eq_length_filter, hpe]
  exact List.count_eq_one_of_mem hnd hmem

theorem mem_valid_parses_both (parseTime : String → Option Time) (m : manager) (ctx : Context)
    (clock : Nat → Time) (b : Banner) (hb : b ∈ (m.GetValidBanners parseTime ctx clock).1) :
    ∃ start exp, parseTime b.GetStart = some start ∧ parseTime b.GetExpiration = some exp := by
  obtain ⟨i, hw⟩ := (mem_valid_withinPeriod parseTime m ctx clock b hb).2
  cases hs : parseTime b.GetStart with
  | none =>
    rw [withinPeriod_unparsed parseTime ctx b (clock i) (Or.inl hs)] at hw
    exact absurd hw (by simp)
  | some start =>
    cases he : parseTime b.GetExpiration with
    | none =>
      rw [withinPeriod_unparsed parseTime ctx b (clock i) (Or.inr he)] at hw
      exact absurd hw (by simp)
    | some exp => exact ⟨start, exp, rfl, rfl⟩

theorem withinPeriod_widens (parseTime : String → Option Time) (ctxExt ctxInt : Context)
    (hint : isInternalIP ctxInt = true) (b : Banner) (now : Time)
    (h : withinPeriod parseTime ctxExt b now = true) :
    withinPeriod parseTime ctxInt b now = true := by
  cases hs : parseTime b.GetStart with
  | none =>
    rw [withinPeriod_unparsed parseTime ctxExt b now (Or.inl hs)] at h
    exact absurd h (by simp)
  | some start =>
    cases he : parseTime b.GetExpiration with
    | none =>
      rw [withinPeriod_unparsed parseTime ctxExt b now (Or.inr he)] at h
      exact absurd h (by simp)
    | some exp =>
      rw [withinPeriod_parsed parseTime ctxExt b now start exp hs he] at h
      rw [withinPeriod_parsed parseTime ctxInt b now start exp hs he]
      rcases h with h | h
      · exact Or.inl ⟨hint, h.2⟩
      · exact Or.inl ⟨hint, h.2⟩

theorem swapAt_perm (x : List Banner) (i j : Nat) : (swapAt x i j).Perm x := by
  unfold swapAt
  cases hi : x[i]? with
  | none => exact List.Perm.refl _
  | some bi =>
    cases hj : x[j]? with
    | none => exact List.Perm.refl _
    | some bj =>
      simp only []
      obtain ⟨hil, hxi⟩ := List.getElem?_eq_some.1 hi
      obtain ⟨hjl, hxj⟩ := List.getElem?_eq_some.1 hj
      rw [List.perm_iff_count]
      intro b
      have hjl' : j < (x.set i bj).length := by rw [List.length_set]; exact hjl
      rw [List.count_set bi b (x.set i bj) j hjl', List.count_set bj b x i hil, hxi]
      have hget : (x.set i bj)[j] = bj := by
        rw [List.getElem_set]
        split_ifs
        · rfl
        · exact hxj
      rw [hget]
      have hpos : (if (bi == b) = true then 1 else 0) ≤ List.count b x := by
        split_ifs with h
        · have hb : bi = b := by simpa using h
          rw [← hb, ← hxi]
          exact List.count_pos_iff.2 (List.getElem_mem hil)
        · exact Nat.zero_le _
      omega

theorem gapPass_perm (less : Banner → Banner → Bool) (k i : Nat) (x : List Banner) :
    (gapPass less k i x).Perm x := by
  induction k generalizing i x with
  | zero => exact List.Perm.refl _
  | succ k ih =>
    unfold gapPass
    split
    · split_ifs
      · exact (ih _ _).trans (swapAt_perm x i (i - 6))
      · exact ih _ _
    · exact List.Perm.refl _

theorem quickSortSmall_sortsSlice : SortsSlice quickSortSmall where
  perm less x := by
    unfold quickSortSmall
    split_ifs
    · exact (insertionSort_sortsSlice.perm less _).trans (gapPass_perm less _ _ x)
    · exact List.Perm.refl _
  sorted less x hless := by
    unfold quickSortSmall
    split_ifs with h
    · exact insertionSort_sortsSlice.sorted less _ hless
    · match x, h with
      | [], _ => exact List.Pairwise.nil
      | [a], _ => exact List.pairwise_singleton _ a
      | a :: b :: r, h => exact absurd (by simp) h

theorem insertLeft_ne_nil (less : Banner → Banner → Bool) (x : Banner) (l : List Banner) :
    insertLeft less x l ≠ [] := by
  cases l with
  | nil => simp [insertLeft]
  | cons y ys =>
    unfold insertLeft
    split_ifs
    · exact List.cons_ne_nil _ _
    · exact List.cons_ne_nil _ _

theorem insertLeft_getLast? (less : Banner → Banner → Bool) (x : Banner) (l : List Banner) :
    (insertLeft less x l).getLast? =
      if ∀ y ∈ l, less x y = true then some x else l.getLast? := by
  induction l with
  | nil => simp [insertLeft]
  | cons y ys ih =>
    unfold insertLeft
    by_cases hxy : less x y = true
    · rw [if_pos hxy]
      have hne : insertLeft less x ys ≠ [] := insertLeft_ne_nil less x ys
      obtain ⟨z, zs, hz⟩ := List.exists_cons_of_ne_nil hne
      rw [hz, List.getLast?_cons_cons, ← hz, ih]
      by_cases hall : ∀ z ∈ ys, less x z = true
      · have hall' : ∀ z ∈ y :: ys, less x z = true := by
          intro z hz
          rcases List.mem_cons.1 hz with h | h
          · rw [h]; exact hxy
          · exact hall z h
        rw [if_pos hall, if_pos hall']
      · have hall' : ¬ ∀ z ∈ y :: ys, less x z = true :=
          fun h => hall (fun z hz => h z (List.mem_cons_of_mem y hz))
        rw [if_neg hall, if_neg hall']
        cases ys with
        | nil => exact absurd (fun z hz => absurd hz (List.not_mem_nil z)) hall
        | cons w ws => rw [List.getLast?_cons_cons]
    · rw [if_neg hxy]
      have hall' : ¬ ∀ z ∈ y :: ys, less x z = true :=
        fun h => hxy (h y (List.mem_cons_self y ys))
      rw [if_neg hall', List.getLast?_cons_cons]

theorem foldl_insertLeft_first_min (less : Banner → Banner → Bool) (hless : IsLess less)
    (l : List Banner) (m : Banner)
    (h : (l.foldl (fun pre b => insertLeft less b pre) []).getLast? = some m) :
    ∃ pre post, l = pre ++ m :: post ∧ (∀ x ∈ pre, less m x = true)
      ∧ (∀ x ∈ post, less x m = false) := by
  induction l using List.reverseRecOn generalizing m with
  | nil => simp at h
  | append_singleton l x ih =>
    rw [List.foldl_append, List.foldl_cons, List.foldl_nil, insertLeft_getLast?] at h
    have hmem : ∀ y, y ∈ l.foldl (fun pre b => insertLeft less b pre) [] ↔ y ∈ l := by
      intro y
      have hp := foldl_insertLeft_perm less l []
      rw [List.append_nil] at hp
      rw [hp.mem_iff, List.mem_reverse]
    split_ifs at h with hall
    · have hm : x = m := by simpa using h
      subst hm
      exact ⟨l, [], rfl, fun y hy => hall y ((hmem y).2 hy), by simp⟩
    · obtain ⟨pre, post, hl, hpre, hpost⟩ := ih m h
      refine ⟨pre, post ++ [x], by rw [hl]; simp, hpre, ?_⟩
      intro y hy
      rcases List.mem_append.1 hy with hy | hy
      · exact hpost y hy
      · have hyx : y = x := by simpa using hy
        rw [hyx]
        -- some element of `l` is not above `x`, and `m` is below every element of `l`
        have hex : ∃ z ∈ l, less x z = false := by
          by_contra hcon
          apply hall
          intro z hz
          have := (hmem z).1 hz
          cases hxz : less x z with
          | true => rfl
          | false => exact absurd ⟨z, this, hxz⟩ hcon
        obtain ⟨z, hz, hxz⟩ := hex
        have hzm : less z m = false := by
          rw [hl] at hz
          rcases List.mem_append.1 hz with hz | hz
          · cases hzm : less z m with
            | false => rfl
            | true =>
              have := hless.trans m z m (hpre z hz) hzm
              rw [hless.irrefl m] at this
              exact absurd this (by simp)
          · rcases List.mem_cons.1 hz with hz | hz
            · rw [hz]
              exact hless.irrefl m
            · exact hpost z hz
        exact hless.incomp x z m hxz hzm

/-- The first element after `insertionSort` is the first least element of the
slice: everything before it in the slice is greater, nothing after it is
less. -/
theorem insertionSort_head_first_min (less : Banner → Banner → Bool) (hless : IsLess less)
    (l : List Banner) (b0 : Banner) (rest : List Banner)
    (h : insertionSort less l = b0 :: rest) :
    ∃ pre post, l = pre ++ b0 :: post ∧ (∀ x ∈ pre, less b0 x = true)
      ∧ (∀ x ∈ post, less x b0 = false) := by
  apply foldl_insertLeft_first_min less hless l b0
  unfold insertionSort at h
  rw [← List.head?_reverse, h]
  rfl

theorem first_split_unique (a : Banner) (l1 l2 r1 r2 : List Banner)
    (h : l1 ++ a :: r1 = l2 ++ a :: r2) (h1 : a ∉ l1) (h2 : a ∉ l2) : l1 = l2 := by
  induction l1 generalizing l2 with
  | nil =>
    cases l2 with
    | nil => rfl
    | cons y ys =>
      simp only [List.nil_append, List.cons_append, List.cons.injEq] at h
      exact absurd (List.mem_cons.2 (Or.inl h.1)) h2
  | cons x xs ih =>
    cases l2 with
    | nil =>
      simp only [List.nil_append, List.cons_append, List.cons.injEq] at h
      exact absurd (List.mem_cons.2 (Or.inl h.1.symm)) h1
    | cons y ys =>
      simp only [List.cons_append, List.cons.injEq] at h
      rw [h.1, ih ys h.2 (fun hm => h1 (List.mem_cons_of_mem x hm))
        (fun hm => h2 (List.mem_cons_of_mem y hm))]

theorem calls_singleton_selected (parseTime : String → Option Time)
    (sortSlice : (Banner → Banner → Bool) → List Banner → List Banner) (m : manager)
    (ctx : Context) (clock : Nat → Time) (b0 : Banner)
    (h : (m.DisplayAppropriateBanner parseTime sortSlice ctx clock).calls = [b0]) :
    ∃ rest, sortSlice (lessExpiration parseTime) (m.GetValidBanners parseTime ctx clock).1
      = b0 :: rest := by
  rcases hg : m.repo.GetBanners with ⟨banners, _ | e⟩
  · have hv := GetValidBanners_ok parseTime m ctx clock banners hg
    by_cases hnil : (m.GetValidBanners parseTime ctx clock).1 = []
    · have hr : m.DisplayAppropriateBanner parseTime sortSlice ctx clock =
          { displayed := false, err := none, calls := [] } := by
        unfold manager.DisplayAppropriateBanner
        rw [hv] at hnil ⊢
        simp only [] at hnil
        simp [hnil]
      rw [hr] at h
      exact absurd h (by simp)
    · cases hs : sortSlice (lessExpiration parseTime)
          (m.GetValidBanners parseTime ctx clock).1 with
      | nil =>
        have hr : m.DisplayAppropriateBanner parseTime sortSlice ctx clock =
            { displayed := false, err := none, calls := [] } := by
          rw [hv] at hs hnil
          simp only [] at hs hnil
          unfold manager.DisplayAppropriateBanner
          rw [hv]
          simp [hnil, hs]
        rw [hr] at h
        exact absurd h (by simp)
      | cons b rest =>
        rw [display_of_sorted parseTime sortSlice m ctx clock b rest hnil hs] at h
        have hb : b = b0 := by
          cases hD : b.Display with
          | none =>
            rw [hD] at h
            simpa using h
          | some err =>
            rw [hD] at h
            simpa using h
        exact ⟨rest, by rw [hb]⟩
  · have hv := GetValidBanners_err parseTime m ctx clock banners e hg
    have hr : m.DisplayAppropriateBanner parseTime sortSlice ctx clock =
        { displayed := false, err := some e, calls := [] } := by
      unfold manager.DisplayAppropriateBanner
      rw [hv]
    rw [hr] at h
    exact absurd h (by simp)

theorem enumFrom_pairwise_lt (l : List Banner) (n : Nat) :
    (l.enumFrom n).Pairwise (fun a b => a.1 < b.1) := by
  induction l generalizing n with
  | nil => exact List.Pairwise.nil
  | cons a l ih =>
    rw [List.enumFrom_cons, List.pairwise_cons]
    refine ⟨?_, ih (n + 1)⟩
    intro y hy
    have := (List.mem_enumFrom hy).1
    exact Nat.lt_of_succ_le this

/-- The run in which the clock passes 01:00 between the two `withinPeriod`
calls returns both banners, which are valid together at no single instant. -/
theorem crossing_run_is_filter_at_no_instant :
    ((NewManager (mockRepo [bannerFirstHour, bannerStarting])).GetValidBanners parseSample
        Background crossingClock).1 = [bannerFirstHour, bannerStarting]
      ∧ ∀ now : Time, [bannerFirstHour, bannerStarting].filter
          (fun b => !b.IsExpired && withinPeriod parseSample Background b now)
            ≠ [bannerFirstHour, bannerStarting] := by
  refine ⟨by decide, ?_⟩
  intro now hfilter
  have h1 : bannerFirstHour ∈ [bannerFirstHour, bannerStarting].filter
      (fun b => !b.IsExpired && withinPeriod parseSample Background b now) := by
    rw [hfilter]
    exact List.mem_cons_self _ _
  have h2 : bannerStarting ∈ [bannerFirstHour, bannerStarting].filter
      (fun b => !b.IsExpired && withinPeriod parseSample Background b now) := by
    rw [hfilter]
    exact List.mem_cons_of_mem _ (List.mem_cons_self _ _)
  have hw1 : withinPeriod parseSample Background bannerFirstHour now = true := by
    have hboth := (List.mem_filter.1 h1).2
    rw [Bool.and_eq_true] at hboth
    exact hboth.2
  have hw2 : withinPeriod parseSample Background bannerStarting now = true := by
    have hboth := (List.mem_filter.1 h2).2
    rw [Bool.and_eq_true] at hboth
    exact hboth.2
  have hctx : isInternalIP Background = false := by decide
  rw [withinPeriod_parsed parseSample Background bannerFirstHour now
    (1704067200 * 1000000000) (1704070800 * 1000000000) (by decide) (by decide), hctx] at hw1
  rw [withinPeriod_parsed parseSample Background bannerStarting now
    (1704070800 * 1000000000) (1704074400 * 1000000000) (by decide) (by decide), hctx] at hw2
  rcases hw1 with h | h
  · exact absurd h.1 (by simp)
  · rcases hw2 with h' | h'
    · exact absurd h'.1 (by simp)
    · exact absurd (lt_trans h.2 h'.1) (lt_irrefl _)

/-! ## The claims -/

/-- C1: when the store read succeeds, `GetValidBanners` returns no error and
exactly the banners of the store, in store order and with the same
multiplicity, for which `IsExpired()` is false and the call of `withinPeriod`
made for them in the loop returned true (each call reads the clock for itself);
a banner with `IsExpired() == true` is never returned.  When the readings of
one call are the same instant, these are the banners of the store valid at
that instant, each as often as in the store. -/
theorem C1_GetValidBanners_exact (parseTime : String → Option Time) (m : manager)
    (ctx : Context) (clock : Nat → Time) (banners : List Banner)
    (hread : m.repo.GetBanners = (banners, none)) :
    m.GetValidBanners parseTime ctx clock =
        ((banners.enum.filter
          (fun ib => !ib.2.IsExpired && withinPeriod parseTime ctx ib.2 (clock ib.1))).map
            Prod.snd, none)
      ∧ (∀ b, b ∈ (m.GetValidBanners parseTime ctx clock).1 ↔
          ∃ i, banners[i]? = some b ∧ b.IsExpired = false
            ∧ withinPeriod parseTime ctx b (clock i) = true)
      ∧ (∀ b, (m.GetValidBanners parseTime ctx clock).1.count b =
          banners.enum.countP (fun ib => decide (ib.2 = b)
            && (!ib.2.IsExpired && withinPeriod parseTime ctx ib.2 (clock ib.1))))
      ∧ (∀ b, b.IsExpired = true → b ∉ (m.GetValidBanners parseTime ctx clock).1)
      ∧ (∀ now, (∀ i, i < banners.length → clock i = now) →
          m.GetValidBanners parseTime ctx clock =
            (banners.filter (fun b => !b.IsExpired && withinPeriod parseTime ctx b now), none)
          ∧ (∀ b, (m.GetValidBanners parseTime ctx clock).1.count b =
              if b.IsExpired = false ∧ withinPeriod parseTime ctx b now = true
              then banners.count b else 0)) := by
  have h := GetValidBanners_ok parseTime m ctx clock banners hread
  have hmem := mem_valid_iff parseTime m ctx clock banners hread
  refine ⟨h, hmem, ?_, ?_, ?_⟩
  · intro b
    rw [h]
    simp only []
    rw [List.count_eq_countP, List.countP_map, List.countP_filter]
    apply List.countP_congr
    intro ib _
    simp [Function.comp]
  · intro b hb hin
    obtain ⟨i, _, hfalse, _⟩ := (hmem b).1 hin
    rw [hb] at hfalse
    exact absurd hfalse (by simp)
  · intro now hsteady
    have hs := GetValidBanners_steady parseTime m ctx clock now banners hread hsteady
    refine ⟨hs, ?_⟩
    intro b
    rw [hs]
    simp only [count_filter_banner]
    by_cases h1 : b.IsExpired = false <;> by_cases h2 : withinPeriod parseTime ctx b now = true <;>
      simp [h1, h2]

theorem C1_GetValidBanners_exact_witness :
    (NewManager (mockRepo [bannerFirstHour, bannerStarting])).repo.GetBanners
        = ([bannerFirstHour, bannerStarting], none)
      ∧ ((NewManager (mockRepo [bannerFirstHour, bannerStarting])).GetValidBanners parseSample
            Background crossingClock =
          (([bannerFirstHour, bannerStarting].enum.filter
            (fun ib => !ib.2.IsExpired
              && withinPeriod parseSample Background ib.2 (crossingClock ib.1))).map
              Prod.snd, none)
        ∧ (∀ b, b ∈ ((NewManager (mockRepo [bannerFirstHour, bannerStarting])).GetValidBanners
              parseSample Background crossingClock).1 ↔
            ∃ i, [bannerFirstHour, bannerStarting][i]? = some b ∧ b.IsExpired = false
              ∧ withinPeriod parseSample Background b (crossingClock i) = true)
        ∧ (∀ b, ((NewManager (mockRepo [bannerFirstHour, bannerStarting])).GetValidBanners
              parseSample Background crossingClock).1.count b =
            [bannerFirstHour, bannerStarting].enum.countP (fun ib => decide (ib.2 = b)
              && (!ib.2.IsExpired
                && withinPeriod parseSample Background ib.2 (crossingClock ib.1))))
        ∧ (∀ b, b.IsExpired = true →
            b ∉ ((NewManager (mockRepo [bannerFirstHour, bannerStarting])).GetValidBanners
              parseSample Background crossingClock).1)
        ∧ (∀ now, (∀ i, i < [bannerFirstHour, bannerStarting].length → crossingClock i = now) →
            (NewManager (mockRepo [bannerFirstHour, bannerStarting])).GetValidBanners parseSample
                Background crossingClock =
              ([bannerFirstHour, bannerStarting].filter
                (fun b => !b.IsExpired && withinPeriod parseSample Background b now), none)
            ∧ (∀ b, ((NewManager (mockRepo [bannerFirstHour, bannerStarting])).GetValidBanners
                  parseSample Background crossingClock).1.count b =
                if b.IsExpired = false ∧ withinPeriod parseSample Background b now = true
                then [bannerFirstHour, bannerStarting].count b else 0)))
      ∧ ((NewManager (mockRepo [bannerFirstHour, bannerStarting])).GetValidBanners parseSample
          Background crossingClock).1 = [bannerFirstHour, bannerStarting]
      ∧ ((NewManager (mockRepo sampleStore)).GetValidBanners parseSample Background
          (steadyClock sampleNow)).1 = [bannerLate, bannerEarly] :=
  ⟨rfl, C1_GetValidBanners_exact parseSample
    (NewManager (mockRepo [bannerFirstHour, bannerStarting])) Background crossingClock
    [bannerFirstHour, bannerStarting] rfl, by decide, by decide⟩

/-- C2: when at least one banner is valid, `DisplayAppropriateBanner` invokes
`Display()` on one banner; that banner is in the valid set (the result of
`GetValidBanners`), its expiration parses, and its parsed expiration is not
after the parsed expiration of any valid banner.  This holds for every
`sortSlice` that behaves as `sort.Slice` is documented to. -/
theorem C2_displays_earliest_expiration (parseTime : String → Option Time)
    (sortSlice : (Banner → Banner → Bool) → List Banner → List Banner)
    (hsort : SortsSlice sortSlice) (m : manager) (ctx : Context) (clock : Nat → Time)
    (hvalid : (m.GetValidBanners parseTime ctx clock).1 ≠ []) :
    ∃ b t, (m.DisplayAppropriateBanner parseTime sortSlice ctx clock).calls = [b]
      ∧ b ∈ (m.GetValidBanners parseTime ctx clock).1
      ∧ parseTime b.GetExpiration = some t
      ∧ ∀ b' ∈ (m.GetValidBanners parseTime ctx clock).1,
          ∃ t', parseTime b'.GetExpiration = some t' ∧ After t t' = false := by
  obtain ⟨b0, rest, hsel⟩ := sorted_head_exists sortSlice hsort (lessExpiration parseTime)
    (m.GetValidBanners parseTime ctx clock).1 hvalid
  have hperm := hsort.perm (lessExpiration parseTime) (m.GetValidBanners parseTime ctx clock).1
  have hsorted := hsort.sorted (lessExpiration parseTime)
    (m.GetValidBanners parseTime ctx clock).1 (lessExpiration_isLess parseTime)
  rw [hsel] at hperm hsorted
  have hb0 : b0 ∈ (m.GetValidBanners parseTime ctx clock).1 :=
    hperm.mem_iff.1 (List.mem_cons_self b0 rest)
  obtain ⟨t, ht⟩ := mem_valid_parses parseTime m ctx clock b0 hb0
  refine ⟨b0, t, ?_, hb0, ht, ?_⟩
  · rw [display_of_sorted parseTime sortSlice m ctx clock b0 rest hvalid hsel]
    cases b0.Display <;> rfl
  · intro b' hb'
    obtain ⟨t', ht'⟩ := mem_valid_parses parseTime m ctx clock b' hb'
    refine ⟨t', ht', ?_⟩
    rcases List.mem_cons.1 (hperm.mem_iff.2 hb') with heq | hrest
    · rw [heq, ht] at ht'
      have htt : t = t' := by simpa using ht'
      simp [After, htt]
    · have hle := (List.pairwise_cons.1 hsorted).1 b' hrest
      simpa [lessExpiration, Before, After, ht, ht'] using hle

theorem C2_displays_earliest_expiration_witness :
    (SortsSlice insertionSort
      ∧ ((NewManager (mockRepo sampleStore)).GetValidBanners parseSample Background
        (steadyClock sampleNow)).1
          ≠ [])
    ∧ (∃ b t, ((NewManager (mockRepo sampleStore)).DisplayAppropriateBanner parseSample
            insertionSort Background (steadyClock sampleNow)).calls = [b]
        ∧ b ∈ ((NewManager (mockRepo sampleStore)).GetValidBanners parseSample Background
          (steadyClock sampleNow)).1
        ∧ parseSample b.GetExpiration = some t
        ∧ ∀ b' ∈ ((NewManager (mockRepo sampleStore)).GetValidBanners parseSample Background
          (steadyClock sampleNow)).1,
            ∃ t', parseSample b'.GetExpiration = some t' ∧ After t t' = false)
    ∧ ((NewManager (mockRepo sampleStore)).GetValidBanners parseSample Background
      (steadyClock sampleNow)).1
        = [bannerLate, bannerEarly]
    ∧ ((NewManager (mockRepo sampleStore)).DisplayAppropriateBanner parseSample insertionSort
        Background (steadyClock sampleNow)).calls = [bannerEarly] :=
  ⟨⟨insertionSort_sortsSlice, by decide⟩,
    C2_displays_earliest_expiration parseSample insertionSort insertionSort_sortsSlice
      (NewManager (mockRepo sampleStore)) Background (steadyClock sampleNow) (by decide),
    by decide, by decide⟩

/-- C3: for a banner whose start and expiration both parse and a context that is
not classified internal, `withinPeriod` is true exactly when `now` is strictly
after the start and strictly before the expiration; it is false when `now`
equals the start and when `now` equals the expiration. -/
theorem C3_withinPeriod_external (parseTime : String → Option Time) (ctx : Context)
    (b : Banner) (now start exp : Time) (hstart : parseTime b.GetStart = some start)
    (hexp : parseTime b.GetExpiration = some exp) (hctx : isInternalIP ctx = false) :
    (withinPeriod parseTime ctx b now = true ↔ start < now ∧ now < exp)
      ∧ (now = start → withinPeriod parseTime ctx b now = false)
      ∧ (now = exp → withinPeriod parseTime ctx b now = false) := by
  have hw := withinPeriod_parsed parseTime ctx b now start exp hstart hexp
  have hiff : withinPeriod parseTime ctx b now = true ↔ start < now ∧ now < exp := by
    rw [hw, hctx]
    simp
  refine ⟨hiff, ?_, ?_⟩
  · intro h
    rw [← Bool.not_eq_true, hiff, h]
    exact fun hc => lt_irrefl _ hc.1
  · intro h
    rw [← Bool.not_eq_true, hiff, h]
    exact fun hc => lt_irrefl _ hc.2

theorem C3_withinPeriod_external_witness :
    (parseSample bannerEarly.GetStart = some (1704067200 * 1000000000)
      ∧ parseSample bannerEarly.GetExpiration = some (1704074400 * 1000000000)
      ∧ isInternalIP (ctxOfIP "1.1.1.1") = false)
    ∧ ((withinPeriod parseSample (ctxOfIP "1.1.1.1") bannerEarly sampleNow = true ↔
          (1704067200 * 1000000000 : Time) < sampleNow ∧ sampleNow < 1704074400 * 1000000000)
      ∧ (sampleNow = 1704067200 * 1000000000 →
          withinPeriod parseSample (ctxOfIP "1.1.1.1") bannerEarly sampleNow = false)
      ∧ (sampleNow = 1704074400 * 1000000000 →
          withinPeriod parseSample (ctxOfIP "1.1.1.1") bannerEarly sampleNow = false)) :=
  ⟨⟨by decide, by decide, by decide⟩,
    C3_withinPeriod_external parseSample (ctxOfIP "1.1.1.1") bannerEarly sampleNow
      (1704067200 * 1000000000) (1704074400 * 1000000000) (by decide) (by decide) (by decide)⟩

/-- C4: for a banner whose start and expiration both parse and a context that
`isInternalIP` classifies as internal, `withinPeriod` is true exactly when
`now` is strictly before the expiration, whatever the start: a start in the
future does not exclude the banner, an expiration at or before `now` does. -/
theorem C4_withinPeriod_internal (parseTime : String → Option Time) (ctx : Context)
    (b : Banner) (now start exp : Time) (hstart : parseTime b.GetStart = some start)
    (hexp : parseTime b.GetExpiration = some exp) (hctx : isInternalIP ctx = true) :
    (withinPeriod parseTime ctx b now = true ↔ now < exp)
      ∧ (now < start → now < exp → withinPeriod parseTime ctx b now = true)
      ∧ (exp ≤ now → withinPeriod parseTime ctx b now = false) := by
  have hw := withinPeriod_parsed parseTime ctx b now start exp hstart hexp
  have hiff : withinPeriod parseTime ctx b now = true ↔ now < exp := by
    rw [hw, hctx]
    constructor
    · rintro (h | h)
      · exact h.2
      · exact h.2
    · intro h
      exact Or.inl ⟨rfl, h⟩
  refine ⟨hiff, ?_, ?_⟩
  · intro _ h
    exact hiff.2 h
  · intro h
    rw [← Bool.not_eq_true, hiff]
    exact not_lt.2 h

theorem C4_withinPeriod_internal_witness :
    (parseSample bannerFuture.GetStart = some (1704074400 * 1000000000)
      ∧ parseSample bannerFuture.GetExpiration = some (1704078000 * 1000000000)
      ∧ isInternalIP (ctxOfIP "10.0.0.0") = true)
    ∧ ((withinPeriod parseSample (ctxOfIP "10.0.0.0") bannerFuture sampleNow = true ↔
          sampleNow < 1704078000 * 1000000000)
      ∧ (sampleNow < 1704074400 * 1000000000 → sampleNow < 1704078000 * 1000000000 →
          withinPeriod parseSample (ctxOfIP "10.0.0.0") bannerFuture sampleNow = true)
      ∧ ((1704078000 * 1000000000 : Time) ≤ sampleNow →
          withinPeriod parseSample (ctxOfIP "10.0.0.0") bannerFuture sampleNow = false)) :=
  ⟨⟨by decide, by decide, by decide⟩,
    C4_withinPeriod_internal parseSample (ctxOfIP "10.0.0.0") bannerFuture sampleNow
      (1704074400 * 1000000000) (1704078000 * 1000000000) (by decide) (by decide) (by decide)⟩

/-- C5: for the dotted-quad text `a.b.c.d` of four octets carried in the
context, `net.ParseIP` yields the address `a.b.c.d` and `isInternalIP` is true
exactly when `a = 10`, the range `10.0.0.0` to `10.255.255.255` (and so it is
for every text that `net.ParseIP` reads as the address `a.b.c.d`); it is true
for `10.0.0.0`, `10.255.255.255`, `10.128.4.200` and false for
`9.255.255.255`, `11.0.0.0`, `192.168.1.1`. -/
theorem C5_internal_iff_first_octet_ten (ctx : Context) (a b c d : Nat) (ha : a < 256)
    (hb : b < 256) (hc : c < 256) (hd : d < 256)
    (hctx : ctx.Value contextKeyIPAddress = some (Any.str (dottedQuad a b c d))) :
    ParseIP (dottedQuad a b c d) = IPv4 a b c d
      ∧ (isInternalIP ctx = true ↔ a = 10)
      ∧ (∀ (ctx' : Context) (s : String), ctx'.Value contextKeyIPAddress = some (Any.str s) →
          ParseIP s = IPv4 a b c d → (isInternalIP ctx' = true ↔ a = 10))
      ∧ isInternalIP (ctxOfIP "10.0.0.0") = true
      ∧ isInternalIP (ctxOfIP "10.255.255.255") = true
      ∧ isInternalIP (ctxOfIP "10.128.4.200") = true
      ∧ isInternalIP (ctxOfIP "9.255.255.255") = false
      ∧ isInternalIP (ctxOfIP "11.0.0.0") = false
      ∧ isInternalIP (ctxOfIP "192.168.1.1") = false := by
  have hp := ParseIP_dottedQuad a b c d ha hb hc hd
  exact ⟨hp, isInternalIP_of_parse ctx _ a b c d hctx hp hb hc hd,
    fun ctx' s hctx' hs => isInternalIP_of_parse ctx' s a b c d hctx' hs hb hc hd,
    by decide, by decide, by decide, by decide, by decide, by decide⟩

theorem C5_internal_iff_first_octet_ten_witness :
    ((10 : Nat) < 256 ∧ (128 : Nat) < 256 ∧ (4 : Nat) < 256 ∧ (200 : Nat) < 256
      ∧ (ctxOfIP "10.128.4.200").Value contextKeyIPAddress
          = some (Any.str (dottedQuad 10 128 4 200)))
    ∧ (ParseIP (dottedQuad 10 128 4 200) = IPv4 10 128 4 200
      ∧ (isInternalIP (ctxOfIP "10.128.4.200") = true ↔ 10 = 10)
      ∧ (∀ (ctx' : Context) (s : String), ctx'.Value contextKeyIPAddress = some (Any.str s) →
          ParseIP s = IPv4 10 128 4 200 → (isInternalIP ctx' = true ↔ 10 = 10))
      ∧ isInternalIP (ctxOfIP "10.0.0.0") = true
      ∧ isInternalIP (ctxOfIP "10.255.255.255") = true
      ∧ isInternalIP (ctxOfIP "10.128.4.200") = true
      ∧ isInternalIP (ctxOfIP "9.255.255.255") = false
      ∧ isInternalIP (ctxOfIP "11.0.0.0") = false
      ∧ isInternalIP (ctxOfIP "192.168.1.1") = false) :=
  ⟨⟨by decide, by decide, by decide, by decide, by decide⟩,
    C5_internal_iff_first_octet_ten (ctxOfIP "10.128.4.200") 10 128 4 200 (by decide) (by decide)
      (by decide) (by decide) (by decide)⟩

/-- C6 as stated fails: the IPv6 text `::ffff:10.0.0.1` is not a dotted-quad
IPv4 address (`parseIPv4` rejects it), `net.ParseIP` accepts it as an
IPv4-mapped address, `To4` gives its 4-byte form, and `isInternalIP` returns
true. -/
theorem C6_mapped_ipv6_is_internal :
    parseIPv4 "::ffff:10.0.0.1".data = []
      ∧ ParseIP "::ffff:10.0.0.1" = IPv4 10 0 0 1
      ∧ To4 (ParseIP "::ffff:10.0.0.1") = [10, 0, 0, 1]
      ∧ isInternalIP (ctxOfIP "::ffff:10.0.0.1") = true := by
  decide

/-- C6, amended: a string carried as the context's IP address that `net.ParseIP`
rejects, or whose parsed address has no 4-byte form (`To4` is `nil`: it is
neither IPv4 nor IPv4-mapped IPv6), is not internal, as the IPv6 texts `::1`,
`2001:db8::1`, `fe80::1` and `::a00:1` and the texts `10.0.0`, `banner` and the
empty string are not; a string is internal exactly when `net.ParseIP` reads it
as the 16-byte form of an address `10.b.c.d`, which it does for
dotted quads and for IPv4-mapped IPv6 texts alike. -/
theorem C6_not_internal_without_To4 (ctx : Context) (s : String)
    (hctx : ctx.Value contextKeyIPAddress = some (Any.str s)) :
    (ParseIP s = [] ∨ To4 (ParseIP s) = [] → isInternalIP ctx = false)
      ∧ (isInternalIP ctx = true ↔
          ∃ b c d, b < 256 ∧ c < 256 ∧ d < 256 ∧ ParseIP s = IPv4 10 b c d)
      ∧ isInternalIP (ctxOfIP "::1") = false
      ∧ isInternalIP (ctxOfIP "2001:db8::1") = false
      ∧ isInternalIP (ctxOfIP "fe80::1") = false
      ∧ isInternalIP (ctxOfIP "::a00:1") = false
      ∧ isInternalIP (ctxOfIP "10.0.0") = false
      ∧ isInternalIP (ctxOfIP "banner") = false
      ∧ isInternalIP (ctxOfIP "") = false :=
  ⟨isInternalIP_of_no_To4 ctx s hctx,
    isInternalIP_iff ctx s hctx,
    by decide, by decide, by decide, by decide, by decide, by decide, by decide⟩

theorem C6_not_internal_without_To4_witness :
    (ctxOfIP "2001:db8::1").Value contextKeyIPAddress = some (Any.str "2001:db8::1")
    ∧ ((ParseIP "2001:db8::1" = [] ∨ To4 (ParseIP "2001:db8::1") = [] →
          isInternalIP (ctxOfIP "2001:db8::1") = false)
      ∧ (isInternalIP (ctxOfIP "2001:db8::1") = true ↔
          ∃ b c d, b < 256 ∧ c < 256 ∧ d < 256 ∧ ParseIP "2001:db8::1" = IPv4 10 b c d)
      ∧ isInternalIP (ctxOfIP "::1") = false
      ∧ isInternalIP (ctxOfIP "2001:db8::1") = false
      ∧ isInternalIP (ctxOfIP "fe80::1") = false
      ∧ isInternalIP (ctxOfIP "::a00:1") = false
      ∧ isInternalIP (ctxOfIP "10.0.0") = false
      ∧ isInternalIP (ctxOfIP "banner") = false
      ∧ isInternalIP (ctxOfIP "") = false) :=
  ⟨by decide, C6_not_internal_without_To4 (ctxOfIP "2001:db8::1") "2001:db8::1" (by decide)⟩

/-- C7: a context with no value under the IP-address key, or with a value there
that is not a string, is not internal; `withinPeriod` and `GetValidBanners`
give for it what they give for any caller that is not internal. -/
theorem C7_absent_ip_not_internal (parseTime : String → Option Time) (ctx : Context)
    (habsent : ctx.Value contextKeyIPAddress = none
      ∨ ∃ tag, ctx.Value contextKeyIPAddress = some (Any.other tag)) :
    isInternalIP ctx = false
      ∧ ∀ ctx', isInternalIP ctx' = false →
          (∀ b now, withinPeriod parseTime ctx b now = withinPeriod parseTime ctx' b now)
          ∧ (∀ (m : manager) (clock : Nat → Time),
              m.GetValidBanners parseTime ctx clock = m.GetValidBanners parseTime ctx' clock) := by
  have h0 : isInternalIP ctx = false := by
    unfold isInternalIP
    rcases habsent with h | ⟨tag, h⟩ <;> rw [h]
  refine ⟨h0, ?_⟩
  intro ctx' h1
  have he : isInternalIP ctx = isInternalIP ctx' := by rw [h0, h1]
  exact ⟨fun b now => withinPeriod_congr parseTime ctx ctx' he b now,
    fun m clock => GetValidBanners_congr parseTime ctx ctx' he m clock⟩

theorem C7_absent_ip_not_internal_witness :
    (Context.Value Background contextKeyIPAddress = none
      ∨ ∃ tag, Context.Value Background contextKeyIPAddress = some (Any.other tag))
    ∧ (isInternalIP Background = false
      ∧ ∀ ctx', isInternalIP ctx' = false →
          (∀ b now, withinPeriod parseSample Background b now = withinPeriod parseSample ctx' b now)
          ∧ (∀ (m : manager) (clock : Nat → Time),
              m.GetValidBanners parseSample Background clock =
                m.GetValidBanners parseSample ctx' clock)) :=
  ⟨Or.inl rfl, C7_absent_ip_not_internal parseSample Background (Or.inl rfl)⟩

/-- C8: a banner whose start or expiration does not parse is outside its period
for every context and every instant (`withinPeriod` returns false, it does not
fail); the banner is never among the banners `GetValidBanners` returns,
whatever the clock shows, and a successful store read still gives no error. -/
theorem C8_unparsable_excluded (parseTime : String → Option Time) (b : Banner)
    (hbad : parseTime b.GetStart = none ∨ parseTime b.GetExpiration = none)
    (ctx : Context) (now : Time) :
    withinPeriod parseTime ctx b now = false
      ∧ (∀ (m : manager) (clock : Nat → Time), b ∉ (m.GetValidBanners parseTime ctx clock).1)
      ∧ (∀ (m : manager) (clock : Nat → Time) banners, m.repo.GetBanners = (banners, none) →
          b ∈ banners → (m.GetValidBanners parseTime ctx clock).2 = none) := by
  have hw := withinPeriod_unparsed parseTime ctx b now hbad
  refine ⟨hw, ?_, ?_⟩
  · intro m clock
    exact not_mem_valid_of_unparsed parseTime b hbad ctx clock m
  · intro m clock banners hg _
    rw [GetValidBanners_ok parseTime m ctx clock banners hg]

theorem C8_unparsable_excluded_witness :
    (parseSample bannerCorrupt.GetStart = none ∨ parseSample bannerCorrupt.GetExpiration = none)
    ∧ (withinPeriod parseSample (ctxOfIP "10.0.0.0") bannerCorrupt sampleNow = false
      ∧ (∀ (m : manager) (clock : Nat → Time),
          bannerCorrupt ∉ (m.GetValidBanners parseSample (ctxOfIP "10.0.0.0") clock).1)
      ∧ (∀ (m : manager) (clock : Nat → Time) banners, m.repo.GetBanners = (banners, none) →
          bannerCorrupt ∈ banners →
          (m.GetValidBanners parseSample (ctxOfIP "10.0.0.0") clock).2 = none)) :=
  ⟨Or.inl (by decide),
    C8_unparsable_excluded parseSample bannerCorrupt (Or.inl (by decide)) (ctxOfIP "10.0.0.0")
      sampleNow⟩

/-- C9: when the banner selected by `DisplayAppropriateBanner` (the first of the
valid banners after `sort.Slice`) has a failing `Display()`,
`DisplayAppropriateBanner` returns `(false, err)` with `err` the error of that
`Display()` call, and that call is the only `Display()` invoked. -/
theorem C9_display_error_no_fallback (parseTime : String → Option Time)
    (sortSlice : (Banner → Banner → Bool) → List Banner → List Banner)
    (hsort : SortsSlice sortSlice) (m : manager) (ctx : Context) (clock : Nat → Time)
    (b0 : Banner) (rest : List Banner) (err : Error)
    (hsel : sortSlice (lessExpiration parseTime) (m.GetValidBanners parseTime ctx clock).1
      = b0 :: rest)
    (hfail : b0.Display = some err) :
    m.DisplayAppropriateBanner parseTime sortSlice ctx clock =
      { displayed := false, err := some err, calls := [b0] } := by
  have hvalid : (m.GetValidBanners parseTime ctx clock).1 ≠ [] := by
    intro hnil
    have hp := hsort.perm (lessExpiration parseTime) (m.GetValidBanners parseTime ctx clock).1
    rw [hsel, hnil] at hp
    exact absurd (List.Perm.eq_nil hp) (by simp)
  rw [display_of_sorted parseTime sortSlice m ctx clock b0 rest hvalid hsel, hfail]

theorem C9_display_error_no_fallback_witness :
    (SortsSlice insertionSort
      ∧ insertionSort (lessExpiration parseSample)
          ((NewManager (mockRepo [bannerLate, bannerBroken])).GetValidBanners parseSample
            Background (steadyClock sampleNow)).1 = bannerBroken :: [bannerLate]
      ∧ bannerBroken.Display = some "fake error")
    ∧ (NewManager (mockRepo [bannerLate, bannerBroken])).DisplayAppropriateBanner parseSample
        insertionSort Background (steadyClock sampleNow) =
        { displayed := false, err := some "fake error", calls := [bannerBroken] } :=
  ⟨⟨insertionSort_sortsSlice, by decide, rfl⟩,
    C9_display_error_no_fallback parseSample insertionSort insertionSort_sortsSlice
      (NewManager (mockRepo [bannerLate, bannerBroken])) Background
        (steadyClock sampleNow) bannerBroken
      [bannerLate] "fake error" (by decide) rfl⟩

/-- C10: `GetValidBanners` returns an error exactly when the store's `GetBanners`
does; the error is then the store's, no banner is returned, and
`DisplayAppropriateBanner` returns `(false, that error)` with no `Display()`
invoked. -/
theorem C10_store_error_propagates (parseTime : String → Option Time)
    (sortSlice : (Banner → Banner → Bool) → List Banner → List Banner) (m : manager)
    (ctx : Context) (clock : Nat → Time) :
    ((m.GetValidBanners parseTime ctx clock).2 ≠ none ↔ m.repo.GetBanners.2 ≠ none)
      ∧ ∀ err, m.repo.GetBanners.2 = some err →
          m.GetValidBanners parseTime ctx clock = ([], some err)
          ∧ m.DisplayAppropriateBanner parseTime sortSlice ctx clock =
              { displayed := false, err := some err, calls := [] } := by
  rcases hg : m.repo.GetBanners with ⟨banners, _ | e⟩
  · rw [GetValidBanners_ok parseTime m ctx clock banners hg]
    simp
  · have hv := GetValidBanners_err parseTime m ctx clock banners e hg
    rw [hv]
    refine ⟨by simp, ?_⟩
    intro err herr
    have hee : e = err := by simpa using herr
    subst hee
    refine ⟨rfl, ?_⟩
    unfold manager.DisplayAppropriateBanner
    rw [hv]

theorem C10_store_error_propagates_witness :
    (((NewManager (failingRepo "store down")).GetValidBanners parseSample Background
      (steadyClock sampleNow)).2
          ≠ none ↔ (NewManager (failingRepo "store down")).repo.GetBanners.2 ≠ none)
      ∧ ∀ err, (NewManager (failingRepo "store down")).repo.GetBanners.2 = some err →
          (NewManager (failingRepo "store down")).GetValidBanners parseSample Background
            (steadyClock sampleNow)
            = ([], some err)
          ∧ (NewManager (failingRepo "store down")).DisplayAppropriateBanner parseSample
              insertionSort Background (steadyClock sampleNow) =
              { displayed := false, err := some err, calls := [] } :=
  C10_store_error_propagates parseSample insertionSort (NewManager (failingRepo "store down"))
    Background (steadyClock sampleNow)

/-- C11: when the store read succeeds and no banner of the store is valid (the
empty store included), that is, for each banner either `IsExpired()` is true
or its `withinPeriod` call returns false, `DisplayAppropriateBanner` returns
`(false, nil)` and invokes `Display()` on no banner, whatever the sorting
function. -/
theorem C11_nothing_valid_nothing_displayed (parseTime : String → Option Time)
    (sortSlice : (Banner → Banner → Bool) → List Banner → List Banner) (m : manager)
    (ctx : Context) (clock : Nat → Time) (banners : List Banner)
    (hread : m.repo.GetBanners = (banners, none))
    (hnone : ∀ i b, banners[i]? = some b →
      (!b.IsExpired && withinPeriod parseTime ctx b (clock i)) = false) :
    m.DisplayAppropriateBanner parseTime sortSlice ctx clock =
      { displayed := false, err := none, calls := [] } := by
  unfold manager.DisplayAppropriateBanner
  rw [GetValidBanners_nil_of_none_valid parseTime m ctx clock banners hread hnone]
  rfl

theorem C11_nothing_valid_nothing_displayed_witness :
    ((NewManager (mockRepo [bannerRetired, bannerFuture, bannerCorrupt])).repo.GetBanners
        = ([bannerRetired, bannerFuture, bannerCorrupt], none)
      ∧ ∀ i b, [bannerRetired, bannerFuture, bannerCorrupt][i]? = some b →
          (!b.IsExpired
            && withinPeriod parseSample (ctxOfIP "1.1.1.1") b (steadyClock sampleNow i)) = false)
    ∧ (NewManager (mockRepo [bannerRetired, bannerFuture, bannerCorrupt])).DisplayAppropriateBanner
        parseSample insertionSort (ctxOfIP "1.1.1.1") (steadyClock sampleNow) =
        { displayed := false, err := none, calls := [] } :=
  ⟨⟨rfl, fun i b hb => by
      have hmem : b ∈ [bannerRetired, bannerFuture, bannerCorrupt] := List.getElem?_mem hb
      have hall : ∀ b ∈ [bannerRetired, bannerFuture, bannerCorrupt],
          (!b.IsExpired && withinPeriod parseSample (ctxOfIP "1.1.1.1") b sampleNow) = false := by
        decide
      exact hall b hmem⟩,
    C11_nothing_valid_nothing_displayed parseSample insertionSort
      (NewManager (mockRepo [bannerRetired, bannerFuture, bannerCorrupt])) (ctxOfIP "1.1.1.1")
      (steadyClock sampleNow) [bannerRetired, bannerFuture, bannerCorrupt] rfl
      (fun i b hb => by
        have hmem : b ∈ [bannerRetired, bannerFuture, bannerCorrupt] := List.getElem?_mem hb
        have hall : ∀ b ∈ [bannerRetired, bannerFuture, bannerCorrupt],
            (!b.IsExpired && withinPeriod parseSample (ctxOfIP "1.1.1.1") b sampleNow) = false := by
          decide
        exact hall b hmem)⟩

/-- C12: when at least one banner is valid, one call of
`DisplayAppropriateBanner` invokes `Display()` exactly once: on the selected
banner (the first of the valid banners after `sort.Slice`) and on no other;
after a successful call the selected banner, a banner of the store, is the one
banner in the displayed state. -/
theorem C12_one_display_per_call (parseTime : String → Option Time)
    (sortSlice : (Banner → Banner → Bool) → List Banner → List Banner)
    (hsort : SortsSlice sortSlice) (m : manager) (ctx : Context) (clock : Nat → Time)
    (hvalid : (m.GetValidBanners parseTime ctx clock).1 ≠ []) :
    ∃ b0 rest,
      sortSlice (lessExpiration parseTime) (m.GetValidBanners parseTime ctx clock).1 = b0 :: rest
      ∧ (m.DisplayAppropriateBanner parseTime sortSlice ctx clock).calls = [b0]
      ∧ (m.DisplayAppropriateBanner parseTime sortSlice ctx clock).calls.length = 1
      ∧ (m.DisplayAppropriateBanner parseTime sortSlice ctx clock).calls.count b0 = 1
      ∧ (∀ b, b ≠ b0 →
          (m.DisplayAppropriateBanner parseTime sortSlice ctx clock).calls.count b = 0)
      ∧ b0 ∈ m.repo.GetBanners.1
      ∧ ((m.DisplayAppropriateBanner parseTime sortSlice ctx clock).displayed = true →
          (∀ b, displayedAfter (m.DisplayAppropriateBanner parseTime sortSlice ctx clock) b = true
            ↔ b = b0)
          ∧ (m.repo.GetBanners.1.Nodup →
              (m.repo.GetBanners.1.filter
                (displayedAfter (m.DisplayAppropriateBanner parseTime sortSlice ctx clock))).length
                = 1)) := by
  obtain ⟨b0, rest, hsel⟩ := sorted_head_exists sortSlice hsort (lessExpiration parseTime)
    (m.GetValidBanners parseTime ctx clock).1 hvalid
  have hperm := hsort.perm (lessExpiration parseTime) (m.GetValidBanners parseTime ctx clock).1
  rw [hsel] at hperm
  have hb0 : b0 ∈ m.repo.GetBanners.1 :=
    GetValidBanners_fst_subset parseTime m ctx clock b0
      (hperm.mem_iff.1 (List.mem_cons_self b0 rest))
  have hr := display_of_sorted parseTime sortSlice m ctx clock b0 rest hvalid hsel
  have hcalls : (m.DisplayAppropriateBanner parseTime sortSlice ctx clock).calls = [b0] := by
    rw [hr]
    cases b0.Display <;> rfl
  have hdisp : (m.DisplayAppropriateBanner parseTime sortSlice ctx clock).displayed = true →
      ∀ b, displayedAfter (m.DisplayAppropriateBanner parseTime sortSlice ctx clock) b = true
        ↔ b = b0 := by
    intro hd b
    have hnone : b0.Display = none := by
      rw [hr] at hd
      cases hD : b0.Display with
      | none => rfl
      | some e =>
        rw [hD] at hd
        exact absurd hd (by simp)
    unfold displayedAfter
    rw [hcalls]
    constructor
    · intro h
      rw [Bool.and_eq_true, decide_eq_true_eq, List.mem_singleton] at h
      exact h.1
    · intro h
      simp [h, hnone]
  refine ⟨b0, rest, hsel, hcalls, ?_, ?_, ?_, hb0, ?_⟩
  · rw [hcalls]
    rfl
  · rw [hcalls]
    exact List.count_singleton_self b0
  · intro b hne
    rw [hcalls]
    exact List.count_eq_zero.2 (fun h => hne (List.mem_singleton.1 h))
  · intro hd
    exact ⟨hdisp hd, fun hnd => filter_eq_length_one _ _ b0 (hdisp hd) hb0 hnd⟩

theorem C12_one_display_per_call_witness :
    (SortsSlice insertionSort
      ∧ ((NewManager (mockRepo sampleStore)).GetValidBanners parseSample Background
        (steadyClock sampleNow)).1
          ≠ [])
    ∧ (∃ b0 rest,
      insertionSort (lessExpiration parseSample)
          ((NewManager (mockRepo sampleStore)).GetValidBanners parseSample Background
            (steadyClock sampleNow)).1
        = b0 :: rest
      ∧ ((NewManager (mockRepo sampleStore)).DisplayAppropriateBanner parseSample insertionSort
          Background (steadyClock sampleNow)).calls = [b0]
      ∧ ((NewManager (mockRepo sampleStore)).DisplayAppropriateBanner parseSample insertionSort
          Background (steadyClock sampleNow)).calls.length = 1
      ∧ ((NewManager (mockRepo sampleStore)).DisplayAppropriateBanner parseSample insertionSort
          Background (steadyClock sampleNow)).calls.count b0 = 1
      ∧ (∀ b, b ≠ b0 →
          ((NewManager (mockRepo sampleStore)).DisplayAppropriateBanner parseSample insertionSort
            Background (steadyClock sampleNow)).calls.count b = 0)
      ∧ b0 ∈ (NewManager (mockRepo sampleStore)).repo.GetBanners.1
      ∧ (((NewManager (mockRepo sampleStore)).DisplayAppropriateBanner parseSample insertionSort
            Background (steadyClock sampleNow)).displayed = true →
          (∀ b, displayedAfter ((NewManager (mockRepo sampleStore)).DisplayAppropriateBanner
              parseSample insertionSort Background (steadyClock sampleNow)) b = true ↔ b = b0)
          ∧ ((NewManager (mockRepo sampleStore)).repo.GetBanners.1.Nodup →
              ((NewManager (mockRepo sampleStore)).repo.GetBanners.1.filter
                (displayedAfter ((NewManager (mockRepo sampleStore)).DisplayAppropriateBanner
                  parseSample insertionSort Background (steadyClock sampleNow)))).length = 1)))
    ∧ (NewManager (mockRepo sampleStore)).DisplayAppropriateBanner parseSample insertionSort
        Background
          (steadyClock sampleNow) = { displayed := true, err := none, calls := [bannerEarly] }
    ∧ sampleStore.filter (displayedAfter ((NewManager (mockRepo sampleStore)).DisplayAppropriateBanner
        parseSample insertionSort Background (steadyClock sampleNow))) = [bannerEarly] :=
  ⟨⟨insertionSort_sortsSlice, by decide⟩,
    C12_one_display_per_call parseSample insertionSort insertionSort_sortsSlice
      (NewManager (mockRepo sampleStore)) Background (steadyClock sampleNow) (by decide),
    by decide, by decide⟩

/-- C13: `DisplayAppropriateBanner` returns `displayed = true` exactly when the
store read succeeded, the valid set is not empty and `Display()` of the
selected banner (the first of the valid banners after `sort.Slice`) returned no
error; with `true` the returned error is `nil`, and with a non-nil error the
boolean is `false`. -/
theorem C13_displayed_iff_success (parseTime : String → Option Time)
    (sortSlice : (Banner → Banner → Bool) → List Banner → List Banner) (m : manager)
    (ctx : Context) (clock : Nat → Time) :
    ((m.DisplayAppropriateBanner parseTime sortSlice ctx clock).displayed = true ↔
        m.repo.GetBanners.2 = none
        ∧ (m.GetValidBanners parseTime ctx clock).1 ≠ []
        ∧ ∃ b0 rest,
            sortSlice (lessExpiration parseTime) (m.GetValidBanners parseTime ctx clock).1
              = b0 :: rest
            ∧ b0.Display = none)
      ∧ ((m.DisplayAppropriateBanner parseTime sortSlice ctx clock).displayed = true →
          (m.DisplayAppropriateBanner parseTime sortSlice ctx clock).err = none)
      ∧ ((m.DisplayAppropriateBanner parseTime sortSlice ctx clock).err ≠ none →
          (m.DisplayAppropriateBanner parseTime sortSlice ctx clock).displayed = false) := by
  rcases hg : m.repo.GetBanners with ⟨banners, _ | e⟩
  · have hv := GetValidBanners_ok parseTime m ctx clock banners hg
    by_cases hnil : (m.GetValidBanners parseTime ctx clock).1 = []
    · have hr : m.DisplayAppropriateBanner parseTime sortSlice ctx clock =
          { displayed := false, err := none, calls := [] } := by
        unfold manager.DisplayAppropriateBanner
        rw [hv] at hnil ⊢
        simp only [] at hnil
        simp [hnil]
      rw [hr]
      simp [hnil]
    · cases hs : sortSlice (lessExpiration parseTime) (m.GetValidBanners parseTime ctx clock).1 with
      | nil =>
        have hr : m.DisplayAppropriateBanner parseTime sortSlice ctx clock =
            { displayed := false, err := none, calls := [] } := by
          rw [hv] at hs hnil
          simp only [] at hs hnil
          unfold manager.DisplayAppropriateBanner
          rw [hv]
          simp [hnil, hs]
        rw [hr]
        simp
      | cons b0 rest =>
        rw [display_of_sorted parseTime sortSlice m ctx clock b0 rest hnil hs]
        cases hD : b0.Display with
        | none => simp [hnil, hD]
        | some err => simp [hnil, hD]
  · have hv := GetValidBanners_err parseTime m ctx clock banners e hg
    have hr : m.DisplayAppropriateBanner parseTime sortSlice ctx clock =
        { displayed := false, err := some e, calls := [] } := by
      unfold manager.DisplayAppropriateBanner
      rw [hv]
    rw [hr]
    simp

theorem C13_displayed_iff_success_witness :
    (((NewManager (mockRepo [bannerLate, bannerBroken])).DisplayAppropriateBanner parseSample
          insertionSort Background (steadyClock sampleNow)).displayed = true ↔
        (NewManager (mockRepo [bannerLate, bannerBroken])).repo.GetBanners.2 = none
        ∧ ((NewManager (mockRepo [bannerLate, bannerBroken])).GetValidBanners parseSample
            Background (steadyClock sampleNow)).1 ≠ []
        ∧ ∃ b0 rest,
            insertionSort (lessExpiration parseSample)
              ((NewManager (mockRepo [bannerLate, bannerBroken])).GetValidBanners parseSample
                Background (steadyClock sampleNow)).1 = b0 :: rest
            ∧ b0.Display = none)
      ∧ (((NewManager (mockRepo [bannerLate, bannerBroken])).DisplayAppropriateBanner parseSample
            insertionSort Background (steadyClock sampleNow)).displayed = true →
          ((NewManager (mockRepo [bannerLate, bannerBroken])).DisplayAppropriateBanner parseSample
            insertionSort Background (steadyClock sampleNow)).err = none)
      ∧ (((NewManager (mockRepo [bannerLate, bannerBroken])).DisplayAppropriateBanner parseSample
            insertionSort Background (steadyClock sampleNow)).err ≠ none →
          ((NewManager (mockRepo [bannerLate, bannerBroken])).DisplayAppropriateBanner parseSample
            insertionSort Background (steadyClock sampleNow)).displayed = false) :=
  C13_displayed_iff_success parseSample insertionSort
    (NewManager (mockRepo [bannerLate, bannerBroken])) Background (steadyClock sampleNow)

/-- C14: `AddBanner(b)` returns exactly what the store's `SaveBanner(b)` returns,
`nil` or the store's error; it looks at nothing else, so a banner whose start
or expiration does not parse is accepted whenever the store accepts it. -/
theorem C14_AddBanner_passes_through (m : manager) (b : Banner) :
    m.AddBanner b = m.repo.SaveBanner b
      ∧ (m.repo.SaveBanner b = none → m.AddBanner b = none)
      ∧ (∀ err, m.repo.SaveBanner b = some err → m.AddBanner b = some err)
      ∧ (∀ parseTime : String → Option Time,
          (parseTime b.GetStart = none ∨ parseTime b.GetExpiration = none) →
          m.repo.SaveBanner b = none → m.AddBanner b = none)
      ∧ (NewManager (mockRepo [])).AddBanner bannerCorrupt = none
      ∧ (NewManager (failingRepo "disk full")).AddBanner bannerEarly = some "disk full" := by
  unfold manager.AddBanner
  exact ⟨rfl, fun h => h, fun _ h => h, fun _ _ h => h, rfl, rfl⟩

theorem C14_AddBanner_passes_through_witness :
    (NewManager (mockRepo [])).AddBanner bannerCorrupt
        = (NewManager (mockRepo [])).repo.SaveBanner bannerCorrupt
      ∧ ((NewManager (mockRepo [])).repo.SaveBanner bannerCorrupt = none →
          (NewManager (mockRepo [])).AddBanner bannerCorrupt = none)
      ∧ (∀ err, (NewManager (mockRepo [])).repo.SaveBanner bannerCorrupt = some err →
          (NewManager (mockRepo [])).AddBanner bannerCorrupt = some err)
      ∧ (∀ parseTime : String → Option Time,
          (parseTime bannerCorrupt.GetStart = none ∨ parseTime bannerCorrupt.GetExpiration = none) →
          (NewManager (mockRepo [])).repo.SaveBanner bannerCorrupt = none →
          (NewManager (mockRepo [])).AddBanner bannerCorrupt = none)
      ∧ (NewManager (mockRepo [])).AddBanner bannerCorrupt = none
      ∧ (NewManager (failingRepo "disk full")).AddBanner bannerEarly = some "disk full" :=
  C14_AddBanner_passes_through (NewManager (mockRepo [])) bannerCorrupt

/-- C15: whether a banner is valid depends only on its expired flag, its start,
its expiration, the current time and the value of `isInternalIP`: two contexts
with the same classification give the same `withinPeriod` and the same
`GetValidBanners`, and two banners with the same flag, start and expiration
are valid together; `10.0.0.0` and `10.0.255.1` are classified alike, and so
are `1.1.1.1` and no IP at all. -/
theorem C15_validity_depends_on_classification (parseTime : String → Option Time)
    (ctx ctx' : Context) (hsame : isInternalIP ctx = isInternalIP ctx') :
    (∀ b now, withinPeriod parseTime ctx b now = withinPeriod parseTime ctx' b now)
      ∧ (∀ (m : manager) (clock : Nat → Time),
          m.GetValidBanners parseTime ctx clock = m.GetValidBanners parseTime ctx' clock)
      ∧ (∀ (b b' : Banner) now, b.IsExpired = b'.IsExpired → b.GetStart = b'.GetStart →
          b.GetExpiration = b'.GetExpiration →
          (!b.IsExpired && withinPeriod parseTime ctx b now)
            = (!b'.IsExpired && withinPeriod parseTime ctx' b' now))
      ∧ isInternalIP (ctxOfIP "10.0.0.0") = isInternalIP (ctxOfIP "10.0.255.1")
      ∧ isInternalIP (ctxOfIP "1.1.1.1") = isInternalIP Background := by
  refine ⟨fun b now => withinPeriod_congr parseTime ctx ctx' hsame b now,
    fun m clock => GetValidBanners_congr parseTime ctx ctx' hsame m clock, ?_,
    by decide, by decide⟩
  intro b b' now h1 h2 h3
  rw [withinPeriod_congr parseTime ctx ctx' hsame b now]
  unfold withinPeriod
  rw [h1, h2, h3]

theorem C15_validity_depends_on_classification_witness :
    isInternalIP (ctxOfIP "1.1.1.1") = isInternalIP Background
    ∧ ((∀ b now, withinPeriod parseSample (ctxOfIP "1.1.1.1") b now
          = withinPeriod parseSample Background b now)
      ∧ (∀ (m : manager) (clock : Nat → Time),
          m.GetValidBanners parseSample (ctxOfIP "1.1.1.1") clock
            = m.GetValidBanners parseSample Background clock)
      ∧ (∀ (b b' : Banner) now, b.IsExpired = b'.IsExpired → b.GetStart = b'.GetStart →
          b.GetExpiration = b'.GetExpiration →
          (!b.IsExpired && withinPeriod parseSample (ctxOfIP "1.1.1.1") b now)
            = (!b'.IsExpired && withinPeriod parseSample Background b' now))
      ∧ isInternalIP (ctxOfIP "10.0.0.0") = isInternalIP (ctxOfIP "10.0.255.1")
      ∧ isInternalIP (ctxOfIP "1.1.1.1") = isInternalIP Background) :=
  ⟨by decide,
    C15_validity_depends_on_classification parseSample (ctxOfIP "1.1.1.1") Background
      (by decide)⟩

/-- C16 as stated fails: for a context that is not internal, the banner running
from 01:00 to 02:00 is not expired, its parsed start equals the current time
01:00 and its expiration is later, yet `withinPeriod` returns false and
`GetValidBanners` does not return it. -/
theorem C16_start_instant_is_outside :
    bannerStarting.IsExpired = false
      ∧ isInternalIP Background = false
      ∧ parseSample bannerStarting.GetStart = some sampleNow
      ∧ (∃ exp, parseSample bannerStarting.GetExpiration = some exp ∧ sampleNow < exp)
      ∧ withinPeriod parseSample Background bannerStarting sampleNow = false
      ∧ (NewManager (mockRepo [bannerStarting])).GetValidBanners parseSample Background
        (steadyClock sampleNow)
          = ([], none) :=
  ⟨rfl, by decide, by decide, ⟨1704074400 * 1000000000, by decide, by decide⟩, by decide,
    by decide⟩

/-- C16, amended: the promotional period is the window from start to expiration
with both ends excluded.  For a context that is not internal and a banner whose
start and expiration parse, `withinPeriod` is true exactly when the current
time is strictly after the start and strictly before the expiration; a banner
whose parsed start equals the current time is outside its period and is not
returned by `GetValidBanners` (when that is the instant read for it in the
loop), whatever its expiration. -/
theorem C16_period_excludes_start (parseTime : String → Option Time) (ctx : Context)
    (b : Banner) (now start exp : Time) (hstart : parseTime b.GetStart = some start)
    (hexp : parseTime b.GetExpiration = some exp) (hctx : isInternalIP ctx = false) :
    (withinPeriod parseTime ctx b now = true ↔ start < now ∧ now < exp)
      ∧ (start = now → withinPeriod parseTime ctx b now = false
          ∧ (∀ m : manager, b ∉ (m.GetValidBanners parseTime ctx (steadyClock now)).1)
          ∧ (∀ (m : manager) (clock : Nat → Time),
              (∀ i, m.repo.GetBanners.1[i]? = some b → clock i = now) →
              b ∉ (m.GetValidBanners parseTime ctx clock).1)) := by
  have hw := withinPeriod_parsed parseTime ctx b now start exp hstart hexp
  have hiff : withinPeriod parseTime ctx b now = true ↔ start < now ∧ now < exp := by
    rw [hw, hctx]
    simp
  refine ⟨hiff, ?_⟩
  intro heq
  have hfalse : withinPeriod parseTime ctx b now = false := by
    rw [← Bool.not_eq_true, hiff, heq]
    exact fun hc => lt_irrefl _ hc.1
  have hgen : ∀ (m : manager) (clock : Nat → Time),
      (∀ i, m.repo.GetBanners.1[i]? = some b → clock i = now) →
      b ∉ (m.GetValidBanners parseTime ctx clock).1 := by
    intro m clock hclock hmem
    rcases hg : m.repo.GetBanners with ⟨banners, _ | e⟩
    · obtain ⟨i, hi, _, hwi⟩ := (mem_valid_iff parseTime m ctx clock banners hg b).1 hmem
      rw [hg] at hclock
      rw [hclock i hi, hfalse] at hwi
      exact absurd hwi (by simp)
    · rw [GetValidBanners_err parseTime m ctx clock banners e hg] at hmem
      exact absurd hmem (List.not_mem_nil b)
  exact ⟨hfalse, fun m => hgen m (steadyClock now) (fun _ _ => rfl), hgen⟩

theorem C16_period_excludes_start_witness :
    (parseSample bannerStarting.GetStart = some sampleNow
      ∧ parseSample bannerStarting.GetExpiration = some (1704074400 * 1000000000)
      ∧ isInternalIP Background = false)
    ∧ ((withinPeriod parseSample Background bannerStarting sampleNow = true ↔
          sampleNow < sampleNow ∧ sampleNow < 1704074400 * 1000000000)
      ∧ (sampleNow = sampleNow →
          withinPeriod parseSample Background bannerStarting sampleNow = false
          ∧ (∀ m : manager,
              bannerStarting ∉ (m.GetValidBanners parseSample Background
                (steadyClock sampleNow)).1)
          ∧ (∀ (m : manager) (clock : Nat → Time),
              (∀ i, m.repo.GetBanners.1[i]? = some bannerStarting → clock i = sampleNow) →
              bannerStarting ∉ (m.GetValidBanners parseSample Background clock).1))) :=
  ⟨⟨by decide, by decide, by decide⟩,
    C16_period_excludes_start parseSample Background bannerStarting sampleNow sampleNow
      (1704074400 * 1000000000) (by decide) (by decide) (by decide)⟩

/-- C17: every banner returned by `GetValidBanners` has a start and an
expiration that both parse; so on any two banners of the valid set, and of the
slice `sort.Slice` is permuting, the comparator of `DisplayAppropriateBanner`
discards no parse error and compares the two parsed expiration times. -/
theorem C17_valid_banners_parse (parseTime : String → Option Time) (m : manager)
    (ctx : Context) (clock : Nat → Time) :
    (∀ b ∈ (m.GetValidBanners parseTime ctx clock).1,
        ∃ start exp, parseTime b.GetStart = some start ∧ parseTime b.GetExpiration = some exp)
      ∧ (∀ bi ∈ (m.GetValidBanners parseTime ctx clock).1,
          ∀ bj ∈ (m.GetValidBanners parseTime ctx clock).1,
          ∃ t1 t2, parseTime bi.GetExpiration = some t1 ∧ parseTime bj.GetExpiration = some t2
            ∧ lessExpiration parseTime bi bj = Before t1 t2)
      ∧ (∀ x : List Banner, x.Perm (m.GetValidBanners parseTime ctx clock).1 →
          ∀ bi ∈ x, ∀ bj ∈ x,
          ∃ t1 t2, parseTime bi.GetExpiration = some t1 ∧ parseTime bj.GetExpiration = some t2
            ∧ lessExpiration parseTime bi bj = Before t1 t2) := by
  have hcmp : ∀ bi ∈ (m.GetValidBanners parseTime ctx clock).1,
      ∀ bj ∈ (m.GetValidBanners parseTime ctx clock).1,
      ∃ t1 t2, parseTime bi.GetExpiration = some t1 ∧ parseTime bj.GetExpiration = some t2
        ∧ lessExpiration parseTime bi bj = Before t1 t2 := by
    intro bi hi bj hj
    obtain ⟨_, t1, _, h1⟩ := mem_valid_parses_both parseTime m ctx clock bi hi
    obtain ⟨_, t2, _, h2⟩ := mem_valid_parses_both parseTime m ctx clock bj hj
    refine ⟨t1, t2, h1, h2, ?_⟩
    unfold lessExpiration
    rw [h1, h2]
    rfl
  exact ⟨fun b hb => mem_valid_parses_both parseTime m ctx clock b hb, hcmp,
    fun x hx bi hi bj hj => hcmp bi (hx.mem_iff.1 hi) bj (hx.mem_iff.1 hj)⟩

theorem C17_valid_banners_parse_witness :
    (∀ b ∈ ((NewManager (mockRepo sampleStore)).GetValidBanners parseSample Background
      (steadyClock sampleNow)).1,
        ∃ start exp, parseSample b.GetStart = some start ∧ parseSample b.GetExpiration = some exp)
      ∧ (∀ bi ∈ ((NewManager (mockRepo sampleStore)).GetValidBanners parseSample Background
        (steadyClock sampleNow)).1,
          ∀ bj ∈ ((NewManager (mockRepo sampleStore)).GetValidBanners parseSample Background
            (steadyClock sampleNow)).1,
          ∃ t1 t2, parseSample bi.GetExpiration = some t1 ∧ parseSample bj.GetExpiration = some t2
            ∧ lessExpiration parseSample bi bj = Before t1 t2)
      ∧ (∀ x : List Banner,
          x.Perm ((NewManager (mockRepo sampleStore)).GetValidBanners parseSample Background
            (steadyClock sampleNow)).1 →
          ∀ bi ∈ x, ∀ bj ∈ x,
          ∃ t1 t2, parseSample bi.GetExpiration = some t1 ∧ parseSample bj.GetExpiration = some t2
            ∧ lessExpiration parseSample bi bj = Before t1 t2) :=
  C17_valid_banners_parse parseSample (NewManager (mockRepo sampleStore)) Background
    (steadyClock sampleNow)

/-- C18: an internal IP only widens validity: a banner within its period for a
context that is not internal is within its period for every internal context,
so for the same store and the same readings of the clock what
`GetValidBanners` returns for a caller that is not internal is contained, in
order, in what it returns for an internal caller. -/
theorem C18_internal_only_widens (parseTime : String → Option Time) (ctxExt ctxInt : Context)
    (_hext : isInternalIP ctxExt = false) (hint : isInternalIP ctxInt = true) :
    (∀ b now, withinPeriod parseTime ctxExt b now = true →
        withinPeriod parseTime ctxInt b now = true)
      ∧ (∀ (m : manager) (clock : Nat → Time),
          (m.GetValidBanners parseTime ctxExt clock).1.Sublist
            (m.GetValidBanners parseTime ctxInt clock).1
          ∧ (∀ b ∈ (m.GetValidBanners parseTime ctxExt clock).1,
              b ∈ (m.GetValidBanners parseTime ctxInt clock).1)
          ∧ (m.GetValidBanners parseTime ctxExt clock).2
              = (m.GetValidBanners parseTime ctxInt clock).2) := by
  have hw := withinPeriod_widens parseTime ctxExt ctxInt hint
  refine ⟨hw, ?_⟩
  intro m clock
  have hsub : (m.GetValidBanners parseTime ctxExt clock).1.Sublist
      (m.GetValidBanners parseTime ctxInt clock).1
      ∧ (m.GetValidBanners parseTime ctxExt clock).2
          = (m.GetValidBanners parseTime ctxInt clock).2 := by
    rcases hg : m.repo.GetBanners with ⟨banners, _ | e⟩
    · rw [GetValidBanners_ok parseTime m ctxExt clock banners hg,
        GetValidBanners_ok parseTime m ctxInt clock banners hg]
      refine ⟨List.Sublist.map Prod.snd (List.monotone_filter_right banners.enum ?_), rfl⟩
      intro ib hb
      rw [Bool.and_eq_true] at hb ⊢
      exact ⟨hb.1, hw ib.2 (clock ib.1) hb.2⟩
    · rw [GetValidBanners_err parseTime m ctxExt clock banners e hg,
        GetValidBanners_err parseTime m ctxInt clock banners e hg]
      exact ⟨List.Sublist.refl _, rfl⟩
  exact ⟨hsub.1, fun b hb => hsub.1.subset hb, hsub.2⟩

theorem C18_internal_only_widens_witness :
    (isInternalIP (ctxOfIP "1.1.1.1") = false ∧ isInternalIP (ctxOfIP "10.0.255.1") = true)
    ∧ ((∀ b now, withinPeriod parseSample (ctxOfIP "1.1.1.1") b now = true →
          withinPeriod parseSample (ctxOfIP "10.0.255.1") b now = true)
      ∧ (∀ (m : manager) (clock : Nat → Time),
          (m.GetValidBanners parseSample (ctxOfIP "1.1.1.1") clock).1.Sublist
            (m.GetValidBanners parseSample (ctxOfIP "10.0.255.1") clock).1
          ∧ (∀ b ∈ (m.GetValidBanners parseSample (ctxOfIP "1.1.1.1") clock).1,
              b ∈ (m.GetValidBanners parseSample (ctxOfIP "10.0.255.1") clock).1)
          ∧ (m.GetValidBanners parseSample (ctxOfIP "1.1.1.1") clock).2
              = (m.GetValidBanners parseSample (ctxOfIP "10.0.255.1") clock).2))
    ∧ ((NewManager (mockRepo sampleStore)).GetValidBanners parseSample (ctxOfIP "1.1.1.1")
        (steadyClock sampleNow)).1 = [bannerLate, bannerEarly]
    ∧ ((NewManager (mockRepo sampleStore)).GetValidBanners parseSample (ctxOfIP "10.0.255.1")
        (steadyClock sampleNow)).1 = [bannerLate, bannerEarly, bannerFuture] :=
  ⟨⟨by decide, by decide⟩,
    C18_internal_only_widens parseSample (ctxOfIP "1.1.1.1") (ctxOfIP "10.0.255.1") (by decide)
      (by decide),
    by decide, by decide⟩

/-- C19: `GetValidBanners` preserves store order: on a successful store read the
result is the sequence returned by `GetBanners` filtered by the validity
predicate (each banner tested at the reading of its own `withinPeriod` call),
a subsequence of it in the same order, with no banner occurring more often
than in the store. -/
theorem C19_store_order_preserved (parseTime : String → Option Time) (m : manager)
    (ctx : Context) (clock : Nat → Time) (banners : List Banner)
    (hread : m.repo.GetBanners = (banners, none)) :
    (m.GetValidBanners parseTime ctx clock).1 =
        (banners.enum.filter
          (fun ib => !ib.2.IsExpired && withinPeriod parseTime ctx ib.2 (clock ib.1))).map
            Prod.snd
      ∧ (m.GetValidBanners parseTime ctx clock).1.Sublist banners
      ∧ (∀ b, (m.GetValidBanners parseTime ctx clock).1.count b ≤ banners.count b)
      ∧ (banners.Nodup → (m.GetValidBanners parseTime ctx clock).1.Nodup)
      ∧ (∀ now, (∀ i, i < banners.length → clock i = now) →
          (m.GetValidBanners parseTime ctx clock).1 =
            banners.filter (fun b => !b.IsExpired && withinPeriod parseTime ctx b now)) := by
  have hsub : ((banners.enum.filter
      (fun ib => !ib.2.IsExpired && withinPeriod parseTime ctx ib.2 (clock ib.1))).map
        Prod.snd).Sublist banners := by
    have h : ((banners.enum.filter
        (fun ib => !ib.2.IsExpired && withinPeriod parseTime ctx ib.2 (clock ib.1))).map
          Prod.snd).Sublist (banners.enum.map Prod.snd) :=
      List.Sublist.map Prod.snd (List.filter_sublist banners.enum)
    rw [List.enum_map_snd] at h
    exact h
  have hsteady : ∀ now, (∀ i, i < banners.length → clock i = now) →
      (m.GetValidBanners parseTime ctx clock).1 =
        banners.filter (fun b => !b.IsExpired && withinPeriod parseTime ctx b now) := by
    intro now hs
    rw [GetValidBanners_steady parseTime m ctx clock now banners hread hs]
  rw [GetValidBanners_ok parseTime m ctx clock banners hread] at hsteady ⊢
  exact ⟨rfl, hsub, fun b => hsub.count_le b, fun hnd => hnd.sublist hsub, hsteady⟩

theorem C19_store_order_preserved_witness :
    (NewManager (mockRepo sampleStore)).repo.GetBanners = (sampleStore, none)
    ∧ (((NewManager (mockRepo sampleStore)).GetValidBanners parseSample (ctxOfIP "10.0.0.0")
          (steadyClock sampleNow)).1 =
        (sampleStore.enum.filter
          (fun ib => !ib.2.IsExpired
            && withinPeriod parseSample (ctxOfIP "10.0.0.0") ib.2 (steadyClock sampleNow ib.1))).map
            Prod.snd
      ∧ ((NewManager (mockRepo sampleStore)).GetValidBanners parseSample (ctxOfIP "10.0.0.0")
          (steadyClock sampleNow)).1.Sublist sampleStore
      ∧ (∀ b, ((NewManager (mockRepo sampleStore)).GetValidBanners parseSample
          (ctxOfIP "10.0.0.0") (steadyClock sampleNow)).1.count b ≤ sampleStore.count b)
      ∧ (sampleStore.Nodup → ((NewManager (mockRepo sampleStore)).GetValidBanners parseSample
          (ctxOfIP "10.0.0.0") (steadyClock sampleNow)).1.Nodup)
      ∧ (∀ now, (∀ i, i < sampleStore.length → steadyClock sampleNow i = now) →
          ((NewManager (mockRepo sampleStore)).GetValidBanners parseSample (ctxOfIP "10.0.0.0")
            (steadyClock sampleNow)).1 =
            sampleStore.filter
              (fun b => !b.IsExpired && withinPeriod parseSample (ctxOfIP "10.0.0.0") b now)))
    ∧ ((NewManager (mockRepo sampleStore)).GetValidBanners parseSample (ctxOfIP "10.0.0.0")
        (steadyClock sampleNow)).1 = [bannerLate, bannerEarly, bannerFuture] :=
  ⟨rfl, C19_store_order_preserved parseSample (NewManager (mockRepo sampleStore))
    (ctxOfIP "10.0.0.0") (steadyClock sampleNow) sampleStore rfl, by decide⟩

/-- C20 as stated fails: `sort.Slice` is not stable.  With the sorting of
go1.18 and earlier on a store of seven valid banners, the first expiring at
03:00 and the six others at 02:00, `DisplayAppropriateBanner` displays the
last banner of the store, and the second banner, valid and with the same
expiration, precedes it in the store. -/
theorem C20_tie_not_first_in_store_order :
    SortsSlice quickSortSmall
      ∧ ((NewManager (mockRepo tieStore)).GetValidBanners parseSample Background
        (steadyClock sampleNow)).1
          = tieStore
      ∧ (NewManager (mockRepo tieStore)).DisplayAppropriateBanner parseSample quickSortSmall
          Background (steadyClock sampleNow) =
          { displayed := true, err := none, calls := [tieBanner 17 "2024-01-01T02:00:00Z"] }
      ∧ tieStore =
          [tieBanner 11 "2024-01-01T03:00:00Z", tieBanner 12 "2024-01-01T02:00:00Z",
            tieBanner 13 "2024-01-01T02:00:00Z", tieBanner 14 "2024-01-01T02:00:00Z",
            tieBanner 15 "2024-01-01T02:00:00Z", tieBanner 16 "2024-01-01T02:00:00Z"]
          ++ tieBanner 17 "2024-01-01T02:00:00Z" :: []
      ∧ tieBanner 17 "2024-01-01T02:00:00Z" ∉
          [tieBanner 11 "2024-01-01T03:00:00Z", tieBanner 12 "2024-01-01T02:00:00Z",
            tieBanner 13 "2024-01-01T02:00:00Z", tieBanner 14 "2024-01-01T02:00:00Z",
            tieBanner 15 "2024-01-01T02:00:00Z", tieBanner 16 "2024-01-01T02:00:00Z"]
      ∧ tieBanner 12 "2024-01-01T02:00:00Z" ∈
          ((NewManager (mockRepo tieStore)).GetValidBanners parseSample Background
            (steadyClock sampleNow)).1
      ∧ parseSample (tieBanner 12 "2024-01-01T02:00:00Z").GetExpiration
          = parseSample (tieBanner 17 "2024-01-01T02:00:00Z").GetExpiration :=
  ⟨quickSortSmall_sortsSlice, by decide, by decide, by decide, by decide, by decide, by decide⟩

/-- C20, amended: the displayed banner is one of the valid banners with the
earliest parsed expiration, and store order does not decide which.  For every
sorting function that behaves as `sort.Slice` is documented to, no valid banner
has an expiration earlier than that of the banner `Display()` is invoked on;
and when the sorting is `insertionSort` (what `sort.Slice` of go1.19 and later
runs on at most 12 elements), no valid banner with an expiration equal to or
earlier than that of the displayed banner precedes its first occurrence in the
store sequence: the displayed banner stands at a store position at which it
was valid, before which every position holding a banner valid there holds one
with a later expiration. -/
theorem C20_tie_break_left_to_sort (parseTime : String → Option Time) (m : manager)
    (ctx : Context) (clock : Nat → Time) (banners : List Banner)
    (hread : m.repo.GetBanners = (banners, none)) :
    (∀ sortSlice, SortsSlice sortSlice → ∀ b0,
        (m.DisplayAppropriateBanner parseTime sortSlice ctx clock).calls = [b0] →
        ∀ b' ∈ (m.GetValidBanners parseTime ctx clock).1, ∀ t t',
          parseTime b0.GetExpiration = some t → parseTime b'.GetExpiration = some t' →
          ¬ t' < t)
      ∧ (∀ now, (∀ i, i < banners.length → clock i = now) →
          ∀ b0, (m.DisplayAppropriateBanner parseTime insertionSort ctx clock).calls = [b0] →
          ∀ pre post, banners = pre ++ b0 :: post → b0 ∉ pre →
          ∀ b' ∈ pre, b' ∈ (m.GetValidBanners parseTime ctx clock).1 → ∀ t t',
            parseTime b0.GetExpiration = some t → parseTime b'.GetExpiration = some t' →
            t < t')
      ∧ (∀ b0, (m.DisplayAppropriateBanner parseTime insertionSort ctx clock).calls = [b0] →
          ∃ i0, banners[i0]? = some b0 ∧ b0.IsExpired = false
            ∧ withinPeriod parseTime ctx b0 (clock i0) = true
            ∧ ∀ j b', j < i0 → banners[j]? = some b' → b'.IsExpired = false →
                withinPeriod parseTime ctx b' (clock j) = true → ∀ t t',
                parseTime b0.GetExpiration = some t → parseTime b'.GetExpiration = some t' →
                t < t') := by
  refine ⟨?_, ?_, ?_⟩
  · intro sortSlice hsort b0 hcalls b' hb' t t' ht ht'
    obtain ⟨rest, hsel⟩ := calls_singleton_selected parseTime sortSlice m ctx clock b0 hcalls
    have hperm := hsort.perm (lessExpiration parseTime) (m.GetValidBanners parseTime ctx clock).1
    have hsorted := hsort.sorted (lessExpiration parseTime)
      (m.GetValidBanners parseTime ctx clock).1 (lessExpiration_isLess parseTime)
    rw [hsel] at hperm hsorted
    rcases List.mem_cons.1 (hperm.mem_iff.2 hb') with heq | hrest
    · rw [heq, ht] at ht'
      have htt : t = t' := by simpa using ht'
      rw [htt]
      exact lt_irrefl t'
    · have hle := (List.pairwise_cons.1 hsorted).1 b' hrest
      simpa [lessExpiration, Before, ht, ht'] using hle
  · intro now hsteady b0 hcalls pre post hsplit hfirst b' hb'pre hb'valid t t' ht ht'
    obtain ⟨rest, hsel⟩ := calls_singleton_selected parseTime insertionSort m ctx clock b0 hcalls
    obtain ⟨pre0, post0, hv0, hpre0, _⟩ := insertionSort_head_first_min
      (lessExpiration parseTime) (lessExpiration_isLess parseTime) _ b0 rest hsel
    have hvalid := GetValidBanners_steady parseTime m ctx clock now banners hread hsteady
    have hb0valid : b0 ∈ (m.GetValidBanners parseTime ctx clock).1 := by
      rw [hv0]
      exact List.mem_append_right _ (List.mem_cons_self b0 post0)
    rw [hvalid] at hv0 hb0valid hb'valid
    simp only [] at hv0 hb0valid hb'valid
    have hp0 := (List.mem_filter.1 hb0valid).2
    have hcons : (b0 :: post).filter (fun b => !b.IsExpired && withinPeriod parseTime ctx b now)
        = b0 :: post.filter (fun b => !b.IsExpired && withinPeriod parseTime ctx b now) :=
      List.filter_cons_of_pos hp0
    rw [hsplit, List.filter_append, hcons] at hv0
    have hnot0 : b0 ∉ pre0 := by
      intro hmem
      have := hpre0 b0 hmem
      rw [(lessExpiration_isLess parseTime).irrefl b0] at this
      exact absurd this (by simp)
    have hnot1 : b0 ∉ pre.filter
        (fun b => !b.IsExpired && withinPeriod parseTime ctx b now) :=
      fun hmem => hfirst (List.mem_filter.1 hmem).1
    have hpre_eq := first_split_unique b0 _ _ _ _ hv0 hnot1 hnot0
    have hb'0 : b' ∈ pre0 := by
      rw [← hpre_eq]
      exact List.mem_filter.2 ⟨hb'pre, (List.mem_filter.1 hb'valid).2⟩
    have hlt := hpre0 b' hb'0
    simpa [lessExpiration, Before, ht, ht'] using hlt
  · intro b0 hcalls
    obtain ⟨rest, hsel⟩ := calls_singleton_selected parseTime insertionSort m ctx clock b0 hcalls
    obtain ⟨pre0, post0, hv0, hpre0, _⟩ := insertionSort_head_first_min
      (lessExpiration parseTime) (lessExpiration_isLess parseTime) _ b0 rest hsel
    rw [GetValidBanners_ok parseTime m ctx clock banners hread] at hv0
    simp only [] at hv0
    obtain ⟨F1, F2', hF, hF1, hF2'⟩ := List.map_eq_append_iff.1 hv0
    obtain ⟨x, F2, hx2, hxb, _⟩ := List.map_eq_cons_iff.1 hF2'
    rw [hx2] at hF
    have hpw : (banners.enum.filter
        (fun ib => !ib.2.IsExpired && withinPeriod parseTime ctx ib.2 (clock ib.1))).Pairwise
        (fun a b => a.1 < b.1) :=
      List.Pairwise.filter _ (enumFrom_pairwise_lt banners 0)
    rw [hF] at hpw
    have hxmem : x ∈ banners.enum.filter
        (fun ib => !ib.2.IsExpired && withinPeriod parseTime ctx ib.2 (clock ib.1)) := by
      rw [hF]
      exact List.mem_append_right _ (List.mem_cons_self x F2)
    obtain ⟨hxenum, hxP⟩ := List.mem_filter.1 hxmem
    have hxget := List.mem_enum_iff_getElem?.1 hxenum
    rw [hxb] at hxget hxP
    rw [Bool.and_eq_true] at hxP
    refine ⟨x.1, hxget, by simpa using hxP.1, hxP.2, ?_⟩
    intro j b' hj hget hexp hw t t' ht ht'
    have hjmem : (j, b') ∈ banners.enum.filter
        (fun ib => !ib.2.IsExpired && withinPeriod parseTime ctx ib.2 (clock ib.1)) := by
      refine List.mem_filter.2 ⟨List.mk_mem_enum_iff_getElem?.2 hget, ?_⟩
      simp [hexp, hw]
    rw [hF] at hjmem
    obtain ⟨_, hpw2, _⟩ := List.pairwise_append.1 hpw
    rcases List.mem_append.1 hjmem with h1 | h2
    · have hb'pre0 : b' ∈ pre0 := by
        rw [← hF1]
        exact List.mem_map.2 ⟨(j, b'), h1, rfl⟩
      have hlt := hpre0 b' hb'pre0
      simpa [lessExpiration, Before, ht, ht'] using hlt
    · rcases List.mem_cons.1 h2 with h3 | h3
      · have : j = x.1 := by rw [← h3]
        omega
      · have := (List.pairwise_cons.1 hpw2).1 (j, b') h3
        simp only [] at this
        omega

theorem C20_tie_break_left_to_sort_witness :
    (NewManager (mockRepo tieStore)).repo.GetBanners = (tieStore, none)
    ∧ ((∀ sortSlice, SortsSlice sortSlice → ∀ b0,
        ((NewManager (mockRepo tieStore)).DisplayAppropriateBanner parseSample sortSlice
          Background (steadyClock sampleNow)).calls = [b0] →
        ∀ b' ∈ ((NewManager (mockRepo tieStore)).GetValidBanners parseSample Background
          (steadyClock sampleNow)).1, ∀ t t',
          parseSample b0.GetExpiration = some t → parseSample b'.GetExpiration = some t' →
          ¬ t' < t)
      ∧ (∀ now, (∀ i, i < tieStore.length → steadyClock sampleNow i = now) →
          ∀ b0, ((NewManager (mockRepo tieStore)).DisplayAppropriateBanner parseSample
            insertionSort Background (steadyClock sampleNow)).calls = [b0] →
          ∀ pre post, tieStore = pre ++ b0 :: post → b0 ∉ pre →
          ∀ b' ∈ pre, b' ∈ ((NewManager (mockRepo tieStore)).GetValidBanners parseSample
            Background (steadyClock sampleNow)).1 → ∀ t t',
            parseSample b0.GetExpiration = some t → parseSample b'.GetExpiration = some t' →
            t < t')
      ∧ (∀ b0, ((NewManager (mockRepo tieStore)).DisplayAppropriateBanner parseSample
            insertionSort Background (steadyClock sampleNow)).calls = [b0] →
          ∃ i0, tieStore[i0]? = some b0 ∧ b0.IsExpired = false
            ∧ withinPeriod parseSample Background b0 (steadyClock sampleNow i0) = true
            ∧ ∀ j b', j < i0 → tieStore[j]? = some b' → b'.IsExpired = false →
                withinPeriod parseSample Background b' (steadyClock sampleNow j) = true → ∀ t t',
                parseSample b0.GetExpiration = some t → parseSample b'.GetExpiration = some t' →
                t < t'))
    ∧ (NewManager (mockRepo tieStore)).DisplayAppropriateBanner parseSample insertionSort
        Background (steadyClock sampleNow) =
        { displayed := true, err := none, calls := [tieBanner 12 "2024-01-01T02:00:00Z"] } :=
  ⟨rfl, C20_tie_break_left_to_sort parseSample (NewManager (mockRepo tieStore)) Background
    (steadyClock sampleNow) tieStore rfl, by decide⟩

end banners
